import Mathlib

/-!
Verification of the multi-engine PDF extractor (`src/extractor.py`).

Shallow embedding: the external world that the Python code observes
(`pdfplumber.open`, page text / image / table data, availability of the
`docling` and `pytesseract` libraries, the file's name and size, the wall
clock) is collected in an `Env` record.  Each Python function becomes a
total Lean function of the `Env`; a Python call that may raise is embedded
as `Except String _` and the orchestrator's `try/except` blocks become
`match` on that result.  Python dicts with a fixed key set become
structures whose fields keep the source's key names.  Python floats occur
only as decimal literals (confidence scores), embedded as exact decimal
numbers `PyFloat` (mantissa / power of ten).
-/

/-- Decimal number standing for a Python float literal such as `0.8`
(`m = 8`, `e = 1` means `8 / 10 ^ 1`).  Every float the extractor
manipulates is such a literal. -/
structure PyFloat where
  m : Int
  e : Nat
deriving DecidableEq, Repr

/-- Rational value of a `PyFloat`. -/
def PyFloat.toRat (d : PyFloat) : ℚ := (d.m : ℚ) / (10 : ℚ) ^ d.e

/-- Characters for which Python's `str.isspace()` (and hence the default
`str.strip()`) returns true. -/
def pyIsSpace (c : Char) : Bool :=
  [9, 10, 11, 12, 13, 28, 29, 30, 31, 32, 133, 160, 5760,
   8192, 8193, 8194, 8195, 8196, 8197, 8198, 8199, 8200, 8201, 8202,
   8232, 8233, 8239, 8287, 12288].contains c.toNat

/-- Python `s.strip()`: remove whitespace from both ends. -/
def pyStrip (s : String) : String :=
  String.mk (((s.data.dropWhile pyIsSpace).reverse.dropWhile pyIsSpace).reverse)

/-- Truthiness of `text and text.strip()` for `text : Optional[str]`. -/
def pyTruthyText : Option String → Bool
  | none => false
  | some t => !decide (t = "") && !decide (pyStrip t = "")

/-- One page as observed through `pdfplumber`: `page.extract_text()`
(`none` embeds Python `None`), the number of entries of `page.images`,
and `page.extract_tables()` (a table is a list of rows of cells, a cell
being `None` or a string). -/
structure PdfPage where
  text : Option String
  images : Nat
  tables : List (List (List (Option String)))
deriving DecidableEq, Repr

/-- A document successfully opened by `pdfplumber.open`. -/
structure PdfDoc where
  pages : List PdfPage
deriving DecidableEq, Repr

/-- Environment of one `extract` call: everything the Python code reads
from outside.  `pdfOpen = none` embeds `pdfplumber.open` raising;
`doclingText = none` embeds the docling conversion raising;
`elapsedCentis` is the elapsed wall time in hundredths of a second at the
moment the result is assembled. -/
structure Env where
  fileName : String
  fileSize : Nat
  pdfOpen : Option PdfDoc
  doclingAvailable : Bool
  doclingText : Option String
  tesseractAvailable : Bool
  elapsedCentis : Nat
deriving DecidableEq, Repr

/-- Analysis dict returned by `PDFAnalyzer.analyze_pdf`. -/
structure PdfAnalysis where
  pages : Nat
  has_text : Bool
  has_images : Bool
  estimated_scan_pages : List Nat
  file_size : Nat
  processing_strategy : String
deriving DecidableEq, Repr

/-- Condition `not text or len(text.strip()) < 50` classifying a sampled
page as likely scanned. -/
def lowTextPage (page : PdfPage) : Bool :=
  match page.text with
  | none => true
  | some t => decide (t = "") || decide ((pyStrip t).length < 50)

/-- Pages inspected by the analyzer: `pdf.pages[:min(5, total_pages)]`. -/
def sampledPages (pdf : PdfDoc) : List PdfPage :=
  pdf.pages.take (min 5 pdf.pages.length)

/-- Embedding of `PDFAnalyzer.analyze_pdf`.  The `try` body becomes the
`some` branch; any internal failure (`pdfplumber.open` raising) is the
`none` branch, the `except Exception` handler. -/
def PDFAnalyzer.analyze_pdf (env : Env) : PdfAnalysis :=
  match env.pdfOpen with
  | some pdf =>
    let total_pages := pdf.pages.length
    let sampled := sampledPages pdf
    let has_text := sampled.any fun page => pyTruthyText page.text
    let has_images := sampled.any fun page => decide (page.images ≠ 0)
    let estimated_scan_pages := (sampled.enum.filter fun ip => lowTextPage ip.2).map fun ip => ip.1
    let strategy :=
      if !has_text && has_images then "ocr_heavy"
      else if has_text && !has_images then "text_extraction"
      else "hybrid"
    { pages := total_pages, has_text := has_text, has_images := has_images,
      estimated_scan_pages := estimated_scan_pages, file_size := env.fileSize,
      processing_strategy := strategy }
  | none =>
    { pages := 1, has_text := false, has_images := false,
      estimated_scan_pages := [0], file_size := 0, processing_strategy := "fallback" }

/-- Strategy decision table as written in the specification (section 4.1),
used to compare the code's branchy derivation against the spec's table. -/
def specStrategyTable (has_text has_images : Bool) : String :=
  match has_text, has_images with
  | false, true => "ocr_heavy"
  | true, false => "text_extraction"
  | true, true => "hybrid"
  | false, false => "hybrid"

/-- Flat table entry `{"page": i+1, "table_id": j, "data": table}` built by
the pdfplumber adapter. -/
structure TableRecord where
  page : Nat
  table_id : Nat
  data : List (List (Option String))
deriving DecidableEq, Repr

/-- Per-page record `{"page_num": i+1, "text": ..., "tables": [], "images": []}`. -/
structure PageRecord where
  page_num : Nat
  text : String
  tables : List TableRecord
  images : List Unit
deriving DecidableEq, Repr

/-- Value of the `"content"` key of an adapter result. -/
structure Content where
  raw_text : String
  pages : List PageRecord
  tables : List TableRecord
  images : List Unit
deriving DecidableEq, Repr

/-- Value of the `"metadata"` key of an adapter result. -/
structure ExtMetadata where
  total_pages : Nat
  text_extraction_method : String
deriving DecidableEq, Repr

/-- Dict returned by one engine adapter: `content`, `metadata` and (for
the three concrete adapters always present) `confidence`; the orchestrator
reads it with `result.get("confidence", 0.8)`, hence the `Option`. -/
structure AdapterResult where
  content : Content
  metadata : ExtMetadata
  confidence : Option PyFloat
deriving DecidableEq, Repr

/-- Value of the `"extraction_info"` key of the final result. -/
structure ExtractionInfo where
  file_name : String
  processing_time : String
  engine_used : List String
  status : String
  confidence : PyFloat
deriving DecidableEq, Repr

/-- Standardized extraction result structure (the `ExtractionResult`
dataclass). -/
structure ExtractionResult where
  extraction_info : ExtractionInfo
  content : Content
  metadata : ExtMetadata
deriving DecidableEq, Repr

/-- Decimal digit character. -/
def digitChar (n : Nat) : Char :=
  match n with
  | 0 => '0' | 1 => '1' | 2 => '2' | 3 => '3' | 4 => '4'
  | 5 => '5' | 6 => '6' | 7 => '7' | 8 => '8' | 9 => '9'
  | _ => '0'

/-- Fuel-driven digit expansion; `fuel > n` always suffices. -/
def natDigitsAux : Nat → Nat → List Char
  | 0, _ => []
  | fuel + 1, n =>
    if n < 10 then [digitChar n]
    else natDigitsAux fuel (n / 10) ++ [digitChar (n % 10)]

/-- Decimal digits of a natural number, most significant first. -/
def natDigits (n : Nat) : List Char := natDigitsAux (n + 1) n

/-- Adapter result holding only raw text, used to exercise the validator. -/
def mkAdapterResult (t : String) : AdapterResult :=
  { content := { raw_text := t, pages := [], tables := [], images := [] },
    metadata := { total_pages := 0, text_extraction_method := "native" },
    confidence := none }

/-- Two-digit zero-padded decimal. -/
def pad2 (k : Nat) : List Char :=
  if k < 10 then '0' :: natDigits k else natDigits k

/-- Embedding of the Python f-string `f"{t:.2f}s"` for a nonnegative time
of `centis` hundredths of a second. -/
def pyFormat2f (centis : Nat) : String :=
  String.mk (natDigits (centis / 100)) ++ "." ++ String.mk (pad2 (centis % 100)) ++ "s"

/-- Embedding of `MultiEngineExtractor._docling_extract`.  `.error` embeds
the body raising (`ImportError` when unavailable, or any failure inside
`converter.convert` / `export_to_text`, embedded by `doclingText = none`). -/
def MultiEngineExtractor._docling_extract (env : Env) (analysis : PdfAnalysis) :
    Except String AdapterResult :=
  if !env.doclingAvailable then .error "docling not available"
  else
    match env.doclingText with
    | none => .error "docling conversion failed"
    | some txt =>
      .ok { content := { raw_text := txt, pages := [], tables := [], images := [] },
            metadata := { total_pages := analysis.pages, text_extraction_method := "native" },
            confidence := some ⟨9, 1⟩ }

/-- Embedding of `MultiEngineExtractor._pdfplumber_extract`.  The
`with pdfplumber.open(...)` raising is the `.error` branch; otherwise the
page loop accumulates `raw_text`, per-page records and the flat table
list.  (The source guards table appending with `if page_tables:`; appending
an empty list is the same.) -/
def MultiEngineExtractor._pdfplumber_extract (env : Env) (_analysis : PdfAnalysis) :
    Except String AdapterResult :=
  match env.pdfOpen with
  | none => .error "pdfplumber open failed"
  | some pdf =>
    let raw_text := pdf.pages.foldl (fun acc page => acc ++ page.text.getD "" ++ "\n") ""
    let pages_content : List PageRecord := pdf.pages.enum.map fun ip =>
      { page_num := ip.1 + 1, text := ip.2.text.getD "", tables := [], images := [] }
    let tables : List TableRecord := pdf.pages.enum.foldl (fun acc ip =>
      acc ++ ip.2.tables.enum.map fun jt => { page := ip.1 + 1, table_id := jt.1, data := jt.2 }) []
    .ok { content := { raw_text := raw_text, pages := pages_content, tables := tables, images := [] },
          metadata := { total_pages := pdf.pages.length, text_extraction_method := "native" },
          confidence := some (if !decide (pyStrip raw_text = "") then ⟨8, 1⟩ else ⟨3, 1⟩) }

/-- Embedding of `MultiEngineExtractor._tesseract_extract`: raises exactly
when `pytesseract` is unavailable, otherwise returns the constant
placeholder result. -/
def MultiEngineExtractor._tesseract_extract (env : Env) (analysis : PdfAnalysis) :
    Except String AdapterResult :=
  if !env.tesseractAvailable then .error "pytesseract not available"
  else
    .ok { content := { raw_text := "OCR extraction placeholder - implementation needed",
                       pages := [], tables := [], images := [] },
          metadata := { total_pages := analysis.pages, text_extraction_method := "ocr" },
          confidence := some ⟨6, 1⟩ }

/-- Embedding of `MultiEngineExtractor._is_valid_result`.  The first guard
`if not result or not isinstance(result, dict)` can never fire on a typed
`AdapterResult` (the adapters always return a non-empty dict); what
remains is `bool(raw_text and raw_text.strip())`. -/
def MultiEngineExtractor._is_valid_result (result : AdapterResult) : Bool :=
  let raw_text := result.content.raw_text
  !decide (raw_text = "") && !decide (pyStrip raw_text = "")

/-- Ordered engine list built in `MultiEngineExtractor.__init__`. -/
def MultiEngineExtractor.engines :
    List (String × (Env → PdfAnalysis → Except String AdapterResult)) :=
  [("docling", MultiEngineExtractor._docling_extract),
   ("pdfplumber", MultiEngineExtractor._pdfplumber_extract),
   ("tesseract", MultiEngineExtractor._tesseract_extract)]

/-- The engine loop of `MultiEngineExtractor.extract`: try each engine in
order; an exception (`.error`) or an invalid result means continue; the
first valid result is returned with its engine name. -/
def tryEngines (env : Env) (analysis : PdfAnalysis) :
    List (String × (Env → PdfAnalysis → Except String AdapterResult)) →
    Option (String × AdapterResult)
  | [] => none
  | (name, engine) :: rest =>
    match engine env analysis with
    | .error _ => tryEngines env analysis rest
    | .ok result =>
      if MultiEngineExtractor._is_valid_result result then some (name, result)
      else tryEngines env analysis rest

/-- Embedding of `MultiEngineExtractor.extract`: analyze once, run the
engine loop, and build either the success result (content and metadata
taken from the winning adapter via `result.get(...)`) or the synthesized
fallback result.  The Python function is total by construction (every
fallible call sits inside `try/except`), which the embedding reflects by
returning a plain `ExtractionResult`. -/
def MultiEngineExtractor.extract (env : Env) : ExtractionResult :=
  let analysis := PDFAnalyzer.analyze_pdf env
  match tryEngines env analysis MultiEngineExtractor.engines with
  | some (engine_name, result) =>
    { extraction_info :=
        { file_name := env.fileName,
          processing_time := pyFormat2f env.elapsedCentis,
          engine_used := [engine_name],
          status := "success",
          confidence := result.confidence.getD ⟨8, 1⟩ },
      content := result.content,
      metadata := result.metadata }
  | none =>
    { extraction_info :=
        { file_name := env.fileName,
          processing_time := pyFormat2f env.elapsedCentis,
          engine_used := ["fallback"],
          status := "fallback",
          confidence := ⟨1, 1⟩ },
      content := { raw_text := "Failed to extract content from " ++ env.fileName,
                   pages := [], tables := [], images := [] },
      metadata := { total_pages := analysis.pages, text_extraction_method := "fallback" } }

/-- Embedding of the module-level `extract_pdf`; the dict it builds from
the dataclass has the same three fields. -/
def extract_pdf (env : Env) : ExtractionResult :=
  MultiEngineExtractor.extract env

/-- Well-formedness of a final result, as the specification's data-model
invariants state it: a recognized status, a confidence in the unit
interval, exactly one engine identifier, a recognized extraction method,
and a never-absent, non-null `raw_text`. -/
def wellFormedResult (r : ExtractionResult) : Prop :=
  (r.extraction_info.status = "success" ∨ r.extraction_info.status = "fallback") ∧
  0 ≤ r.extraction_info.confidence.toRat ∧ r.extraction_info.confidence.toRat ≤ 1 ∧
  r.extraction_info.engine_used.length = 1 ∧
  (r.metadata.text_extraction_method = "native" ∨
    r.metadata.text_extraction_method = "ocr" ∨
    r.metadata.text_extraction_method = "fallback") ∧
  r.content.raw_text ≠ ""

/-- Sample page with given extracted text, no images, no tables. -/
def samplePage (t : String) : PdfPage := { text := some t, images := 0, tables := [] }

/-- Environment where everything external fails or is unavailable. -/
def envNone : Env :=
  { fileName := "doc.pdf", fileSize := 0, pdfOpen := none,
    doclingAvailable := false, doclingText := none,
    tesseractAvailable := false, elapsedCentis := 7 }

/-- Environment whose document opens and has zero pages. -/
def envZeroPages : Env :=
  { envNone with pdfOpen := some { pages := [] }, fileSize := 120 }

/-- Environment where docling is available and succeeds. -/
def envDocling : Env :=
  { envNone with doclingAvailable := true, doclingText := some "hello world",
                 pdfOpen := some { pages := [samplePage "short"] } }

/-- Environment where only tesseract is available. -/
def envTess : Env := { envNone with tesseractAvailable := true }

/-- Adapter result docling produces in `envDocling`. -/
def rDocling : AdapterResult :=
  { content := { raw_text := "hello world", pages := [], tables := [], images := [] },
    metadata := { total_pages := 1, text_extraction_method := "native" },
    confidence := some ⟨9, 1⟩ }

/-- Environment whose document has six pages of tiny text. -/
def envSixPages : Env :=
  { envNone with pdfOpen := some { pages := List.replicate 6 (samplePage "x") } }

/-!
JSON model for the persistence layer (`save_extraction_results`).
A `Json` value stands for the Python object graph handed to `json.dump`;
a number is carried as its decimal literal (Python's `repr` of the int or
float), which is exactly what the serializer prints.
-/

/-- JSON value. -/
inductive Json where
  | null
  | bool (b : Bool)
  | num (s : String)
  | str (s : String)
  | arr (xs : List Json)
  | obj (kvs : List (String × Json))

/-- Opening curly brace character. -/
def lbrace : Char := Char.ofNat 123

/-- Closing curly brace character. -/
def rbrace : Char := Char.ofNat 125

/-- Lowercase hexadecimal digit. -/
def hexDigit (n : Nat) : Char :=
  match n with
  | 0 => '0' | 1 => '1' | 2 => '2' | 3 => '3' | 4 => '4' | 5 => '5' | 6 => '6' | 7 => '7'
  | 8 => '8' | 9 => '9' | 10 => 'a' | 11 => 'b' | 12 => 'c' | 13 => 'd' | 14 => 'e' | _ => 'f'

/-- Four lowercase hex digits, as in Python's `\uXXXX` escapes. -/
def hex4 (n : Nat) : List Char :=
  [hexDigit (n / 4096 % 16), hexDigit (n / 256 % 16), hexDigit (n / 16 % 16), hexDigit (n % 16)]

/-- Numeric value of one hexadecimal digit character. -/
def hexDecVal (c : Char) : Nat :=
  if c.isDigit then c.toNat - 48
  else if 'a' ≤ c ∧ c ≤ 'f' then c.toNat - 87
  else if 'A' ≤ c ∧ c ≤ 'F' then c.toNat - 55
  else 0

/-- Escaping of one character inside a JSON string as `json.dump` with
`ensure_ascii=False` performs it: shorthand escapes for the delimiters and
named control characters, `\uXXXX` for the remaining control characters,
and everything else — including all non-ASCII characters — verbatim. -/
def escChar (c : Char) : List Char :=
  if c = '"' then ['\\', '"']
  else if c = '\\' then ['\\', '\\']
  else if c = '\n' then ['\\', 'n']
  else if c = '\t' then ['\\', 't']
  else if c = '\r' then ['\\', 'r']
  else if c = Char.ofNat 8 then ['\\', 'b']
  else if c = Char.ofNat 12 then ['\\', 'f']
  else if c.toNat < 32 then '\\' :: 'u' :: hex4 c.toNat
  else [c]

/-- Escape a whole character list. -/
def escList : List Char → List Char
  | [] => []
  | c :: cs => escChar c ++ escList cs

/-- Serialized JSON string: quoted and escaped. -/
def quoteL (s : String) : List Char := '"' :: (escList s.data ++ ['"'])

/-- Indentation for nesting level `L` under `indent=2`. -/
def indL (L : Nat) : List Char := List.replicate (2 * L) ' '

mutual

/-- Characters printed by `json.dump(obj, indent=2, ensure_ascii=False)`
for a value at nesting level `L`. -/
def dumpL : Nat → Json → List Char
  | _, .null => ['n', 'u', 'l', 'l']
  | _, .bool true => ['t', 'r', 'u', 'e']
  | _, .bool false => ['f', 'a', 'l', 's', 'e']
  | _, .num s => s.data
  | _, .str s => quoteL s
  | _, .arr [] => ['[', ']']
  | L, .arr (x :: xs) =>
    '[' :: '\n' :: (dumpItems (L + 1) x xs ++ '\n' :: (indL L ++ [']']))
  | _, .obj [] => [lbrace, rbrace]
  | L, .obj (kv :: kvs) =>
    lbrace :: '\n' :: (dumpKvs (L + 1) kv kvs ++ '\n' :: (indL L ++ [rbrace]))
  termination_by L j => sizeOf j

/-- Comma-separated, indented array elements. -/
def dumpItems : Nat → Json → List Json → List Char
  | M, x, xs => indL M ++ dumpL M x ++ itemsSep M xs
  termination_by M x xs => sizeOf x + sizeOf xs
  decreasing_by
  all_goals have hx : 0 < sizeOf x := by cases x <;> simp_arith
  all_goals have hxs : 0 < sizeOf xs := by cases xs <;> simp_arith
  all_goals simp_wf
  all_goals omega

/-- Separator-and-remainder after one array element. -/
def itemsSep : Nat → List Json → List Char
  | _, [] => []
  | M, y :: ys => ',' :: '\n' :: dumpItems M y ys
  termination_by M xs => sizeOf xs

/-- Comma-separated, indented object entries (`"key": value`). -/
def dumpKvs : Nat → (String × Json) → List (String × Json) → List Char
  | M, (k, v), kvs => indL M ++ quoteL k ++ ':' :: ' ' :: dumpL M v ++ kvsSep M kvs
  termination_by M kv kvs => sizeOf kv + sizeOf kvs

/-- Separator-and-remainder after one object entry. -/
def kvsSep : Nat → List (String × Json) → List Char
  | _, [] => []
  | M, kv :: rest => ',' :: '\n' :: dumpKvs M kv rest
  termination_by M kvs => sizeOf kvs

end

/-- Embedding of `json.dump(result, f, indent=2, ensure_ascii=False)`. -/
def json_dump (j : Json) : String := String.mk (dumpL 0 j)

mutual

/-- Number of parser-relevant nodes of a value (string and number
contents count for nothing: the parser spends fuel only on nesting). -/
def sizeJ : Json → Nat
  | .null => 1
  | .bool _ => 1
  | .num _ => 1
  | .str _ => 1
  | .arr xs => 1 + sizeL xs
  | .obj kvs => 1 + sizeK kvs
  termination_by j => sizeOf j

/-- Node count of an array's elements. -/
def sizeL : List Json → Nat
  | [] => 0
  | x :: xs => 1 + sizeJ x + sizeL xs
  termination_by xs => sizeOf xs

/-- Node count of an object's entries. -/
def sizeK : List (String × Json) → Nat
  | [] => 0
  | (_, v) :: kvs => 1 + sizeJ v + sizeK kvs
  termination_by kvs => sizeOf kvs

end

/-- Characters of a JSON number token. -/
def isNumChar (c : Char) : Bool :=
  c.isDigit || c = '.' || c = '-' || c = '+' || c = 'e' || c = 'E'

/-- Well-formedness of a number literal: non-empty, starting with a digit
or minus sign, made of number-token characters only.  Python's `repr` of
an int or float always satisfies this. -/
def numTokOkB (s : String) : Bool :=
  match s.data with
  | [] => false
  | c :: _ => (c.isDigit || c = '-') && s.data.all isNumChar

mutual

/-- All number literals inside the value are well formed. -/
def okJ : Json → Bool
  | .null => true
  | .bool _ => true
  | .num s => numTokOkB s
  | .str _ => true
  | .arr xs => okL xs
  | .obj kvs => okK kvs
  termination_by j => sizeOf j

/-- The `okJ` condition over array elements. -/
def okL : List Json → Bool
  | [] => true
  | x :: xs => okJ x && okL xs
  termination_by xs => sizeOf xs

/-- The `okJ` condition over object entries. -/
def okK : List (String × Json) → Bool
  | [] => true
  | (_, v) :: kvs => okJ v && okK kvs
  termination_by kvs => sizeOf kvs

end

/-- JSON insignificant whitespace, as `json.load` skips it. -/
def isJsonWs (c : Char) : Bool :=
  c = ' ' || c = '\n' || c = '\t' || c = '\r'

/-- Skip insignificant whitespace. -/
def skipWs (cs : List Char) : List Char := cs.dropWhile isJsonWs

/-- Decoding of a shorthand escape character. -/
def unescapeChar (e : Char) : Option Char :=
  if e = '"' then some '"'
  else if e = '\\' then some '\\'
  else if e = '/' then some '/'
  else if e = 'b' then some (Char.ofNat 8)
  else if e = 'f' then some (Char.ofNat 12)
  else if e = 'n' then some '\n'
  else if e = 'r' then some '\r'
  else if e = 't' then some '\t'
  else none

/-- Parse the remainder of a JSON string (the opening quote already
consumed): contents up to the closing quote, and the rest of the input. -/
def parseStrChars : List Char → Option (List Char × List Char)
  | [] => none
  | c :: cs =>
    if c = '"' then some ([], cs)
    else if c = '\\' then
      match cs with
      | [] => none
      | e :: cs2 =>
        if e = 'u' then
          match cs2 with
          | h1 :: h2 :: h3 :: h4 :: cs3 =>
            (parseStrChars cs3).map fun pr =>
              (Char.ofNat (hexDecVal h1 * 4096 + hexDecVal h2 * 256 +
                hexDecVal h3 * 16 + hexDecVal h4) :: pr.1, pr.2)
          | _ => none
        else
          match unescapeChar e with
          | some d => (parseStrChars cs2).map fun pr => (d :: pr.1, pr.2)
          | none => none
    else (parseStrChars cs).map fun pr => (c :: pr.1, pr.2)

/-- Parse a number token by maximal munch. -/
def parseNum (cs : List Char) : Option (Json × List Char) :=
  match cs.takeWhile isNumChar with
  | [] => none
  | tok => some (.num (String.mk tok), cs.dropWhile isNumChar)

mutual

/-- Recursive-descent JSON parser (model of `json.load`), fuelled by the
nesting depth. -/
def parseVal : Nat → List Char → Option (Json × List Char)
  | 0, _ => none
  | fuel + 1, cs =>
    match skipWs cs with
    | [] => none
    | c :: r =>
      if c = '"' then
        (parseStrChars r).map fun pr => (.str (String.mk pr.1), pr.2)
      else if c = '[' then
        match skipWs r with
        | [] => none
        | d :: r2 =>
          if d = ']' then some (.arr [], r2)
          else (parseArrItems fuel (d :: r2)).map fun pr => (.arr pr.1, pr.2)
      else if c = lbrace then
        match skipWs r with
        | [] => none
        | d :: r2 =>
          if d = rbrace then some (.obj [], r2)
          else (parseObjItems fuel (d :: r2)).map fun pr => (.obj pr.1, pr.2)
      else if c = 'n' then
        match r with
        | 'u' :: 'l' :: 'l' :: r2 => some (.null, r2)
        | _ => none
      else if c = 't' then
        match r with
        | 'r' :: 'u' :: 'e' :: r2 => some (.bool true, r2)
        | _ => none
      else if c = 'f' then
        match r with
        | 'a' :: 'l' :: 's' :: 'e' :: r2 => some (.bool false, r2)
        | _ => none
      else parseNum (c :: r)

/-- Parse the elements of a non-empty array, positioned at the first
element. -/
def parseArrItems : Nat → List Char → Option (List Json × List Char)
  | 0, _ => none
  | fuel + 1, cs =>
    match parseVal fuel cs with
    | none => none
    | some (x, r) =>
      match skipWs r with
      | [] => none
      | d :: r2 =>
        if d = ',' then (parseArrItems fuel r2).map fun pr => (x :: pr.1, pr.2)
        else if d = ']' then some ([x], r2)
        else none

/-- Parse the entries of a non-empty object, positioned at the first
key. -/
def parseObjItems : Nat → List Char → Option (List (String × Json) × List Char)
  | 0, _ => none
  | fuel + 1, cs =>
    match skipWs cs with
    | [] => none
    | c :: r =>
      if c = '"' then
        match parseStrChars r with
        | none => none
        | some (k, r2) =>
          match skipWs r2 with
          | ':' :: r3 =>
            match parseVal fuel r3 with
            | none => none
            | some (v, r4) =>
              match skipWs r4 with
              | [] => none
              | d :: r5 =>
                if d = ',' then
                  (parseObjItems fuel r5).map fun pr => ((String.mk k, v) :: pr.1, pr.2)
                else if d = rbrace then some ([(String.mk k, v)], r5)
                else none
          | _ => none
      else none

end

/-- Embedding of `json.load` on the dumped file: parse one value, allow
trailing whitespace only. -/
def json_load (s : String) : Option Json :=
  match parseVal (s.data.length + 1) s.data with
  | some (j, rest) => if skipWs rest = [] then some j else none
  | none => none

/-- Decimal literal of a natural number (Python `repr` of an int). -/
def natLit (n : Nat) : String := String.mk (natDigits n)

/-- Unsigned part of the decimal literal of a `PyFloat`. -/
def decLitBody (d : PyFloat) : List Char :=
  let ds := natDigits d.m.natAbs
  if d.e = 0 then ds ++ ['.', '0']
  else
    let padded := List.replicate (d.e + 1 - ds.length) '0' ++ ds
    let k := padded.length - d.e
    padded.take k ++ '.' :: padded.drop k

/-- Decimal literal of a `PyFloat` (Python `repr` of the float literal,
e.g. `0.8`, `1.0`). -/
def decLit (d : PyFloat) : String :=
  if d.m < 0 then String.mk ('-' :: decLitBody d) else String.mk (decLitBody d)

/-- JSON encoding of one table cell (`None` or a string). -/
def cellToJson : Option String → Json
  | none => .null
  | some s => .str s

/-- JSON encoding of a flat table record. -/
def tableToJson (t : TableRecord) : Json :=
  .obj [("page", .num (natLit t.page)), ("table_id", .num (natLit t.table_id)),
        ("data", .arr (t.data.map fun row => .arr (row.map cellToJson)))]

/-- JSON encoding of a per-page record. -/
def pageToJson (p : PageRecord) : Json :=
  .obj [("page_num", .num (natLit p.page_num)), ("text", .str p.text),
        ("tables", .arr (p.tables.map tableToJson)),
        ("images", .arr (p.images.map fun _ => Json.null))]

/-- JSON encoding of the `content` record. -/
def contentToJson (c : Content) : Json :=
  .obj [("raw_text", .str c.raw_text), ("pages", .arr (c.pages.map pageToJson)),
        ("tables", .arr (c.tables.map tableToJson)),
        ("images", .arr (c.images.map fun _ => Json.null))]

/-- JSON encoding of the `metadata` record. -/
def metadataToJson (m : ExtMetadata) : Json :=
  .obj [("total_pages", .num (natLit m.total_pages)),
        ("text_extraction_method", .str m.text_extraction_method)]

/-- JSON encoding of the `extraction_info` record. -/
def infoToJson (i : ExtractionInfo) : Json :=
  .obj [("file_name", .str i.file_name), ("processing_time", .str i.processing_time),
        ("engine_used", .arr (i.engine_used.map Json.str)), ("status", .str i.status),
        ("confidence", .num (decLit i.confidence))]

/-- JSON encoding of the dict built by `extract_pdf` from an
`ExtractionResult`. -/
def resultToJson (r : ExtractionResult) : Json :=
  .obj [("extraction_info", infoToJson r.extraction_info),
        ("content", contentToJson r.content),
        ("metadata", metadataToJson r.metadata)]

/-- Embedding of `pathlib.Path.with_suffix`: replace the extension of the
path's final component (a leading dot of the component is not an
extension), or append when there is none. -/
def withSuffix (path : String) (suffix : String) : String :=
  let cs := path.data
  let name := (cs.reverse.takeWhile fun c => c ≠ '/').reverse
  let dir := cs.take (cs.length - name.length)
  let revExt := name.reverse.takeWhile fun c => c ≠ '.'
  let stem :=
    if revExt.length + 1 < name.length then name.take (name.length - revExt.length - 1)
    else name
  String.mk (dir ++ stem ++ suffix.data)

/-- Stem-with-directory part shared by the two output paths. -/
def withSuffixBase (path : String) : String :=
  let cs := path.data
  let name := (cs.reverse.takeWhile fun c => c ≠ '/').reverse
  let dir := cs.take (cs.length - name.length)
  let revExt := name.reverse.takeWhile fun c => c ≠ '.'
  let stem :=
    if revExt.length + 1 < name.length then name.take (name.length - revExt.length - 1)
    else name
  String.mk (dir ++ stem)

/-- Embedding of `save_extraction_results`: instead of writing to disk it
returns the two `(path, file content)` pairs the Python function writes —
the `.json` sibling holding `json.dump` of the result dict, and the
`.txt` sibling holding exactly `result["content"]["raw_text"]`
(`f.write` adds nothing). -/
def save_extraction_results (pdf_path : String) (result : ExtractionResult) :
    (String × String) × (String × String) :=
  ((withSuffix pdf_path ".json", json_dump (resultToJson result)),
   (withSuffix pdf_path ".txt", result.content.raw_text))

/-- The condition that input after a number token must not extend the
token: empty, or starting with a non-number character. -/
def DelimOk : List Char → Prop
  | [] => True
  | c :: _ => isNumChar c = false

/-- Round-trip property of one value: its serialized form, followed by
any token-delimiting rest, parses back to exactly the value. -/
def ParsesGood (j : Json) : Prop :=
  ∀ (pf L : Nat) (rest : List Char), sizeJ j ≤ pf → DelimOk rest →
    parseVal pf (dumpL L j ++ rest) = some (j, rest)

/-! ## Helper lemmas -/

theorem pyStrip_empty : pyStrip "" = "" := rfl

theorem pyStrip_ne_empty_imp {s : String} (h : pyStrip s ≠ "") : s ≠ "" := by
  intro he
  subst he
  exact h (by decide)

theorem valid_iff (r : AdapterResult) :
    MultiEngineExtractor._is_valid_result r = true ↔ pyStrip r.content.raw_text ≠ "" := by
  unfold MultiEngineExtractor._is_valid_result
  constructor
  · intro h
    simp only [Bool.and_eq_true, Bool.not_eq_true', decide_eq_false_iff_not] at h
    exact h.2
  · intro h
    simp only [Bool.and_eq_true, Bool.not_eq_true', decide_eq_false_iff_not]
    exact ⟨pyStrip_ne_empty_imp h, h⟩

/-! ## Claim theorems -/

/-- C2: for every document the analyzer can open, the derived strategy is
exactly the specification's decision table applied to the two booleans
`(has_text, has_images)`, and a zero-page document yields `page_count = 0`,
both booleans false, no scan pages and strategy `"hybrid"`. -/
theorem spec_c2_strategy_table (env : Env) (pdf : PdfDoc) (h : env.pdfOpen = some pdf) :
    (PDFAnalyzer.analyze_pdf env).processing_strategy =
      specStrategyTable (PDFAnalyzer.analyze_pdf env).has_text
        (PDFAnalyzer.analyze_pdf env).has_images ∧
    (pdf.pages = [] →
      PDFAnalyzer.analyze_pdf env =
        { pages := 0, has_text := false, has_images := false,
          estimated_scan_pages := [], file_size := env.fileSize,
          processing_strategy := "hybrid" }) := by
  constructor
  · simp only [PDFAnalyzer.analyze_pdf, h]
    cases ht : (sampledPages pdf).any fun page => pyTruthyText page.text <;>
      cases hi : (sampledPages pdf).any fun page => decide (page.images ≠ 0) <;>
        simp [specStrategyTable, ht, hi]
  · intro hp
    simp [PDFAnalyzer.analyze_pdf, h, sampledPages, hp]

/-- Witness for C2 at the concrete zero-page environment. -/
theorem spec_c2_strategy_table_witness :
    (PDFAnalyzer.analyze_pdf envZeroPages).processing_strategy =
      specStrategyTable (PDFAnalyzer.analyze_pdf envZeroPages).has_text
        (PDFAnalyzer.analyze_pdf envZeroPages).has_images ∧
    PDFAnalyzer.analyze_pdf envZeroPages =
      { pages := 0, has_text := false, has_images := false,
        estimated_scan_pages := [], file_size := 120, processing_strategy := "hybrid" } :=
  ⟨(spec_c2_strategy_table envZeroPages ⟨[]⟩ rfl).1,
   (spec_c2_strategy_table envZeroPages ⟨[]⟩ rfl).2 rfl⟩

/-- C5: the validator accepts exactly the results whose `raw_text` is
non-empty after stripping whitespace, it depends on nothing but
`raw_text`, and on the boundary `""` and `"   "` are invalid while `"a"`
is valid. -/
theorem spec_c5_validator :
    (∀ r : AdapterResult,
        MultiEngineExtractor._is_valid_result r = true ↔ pyStrip r.content.raw_text ≠ "") ∧
    (∀ r q : AdapterResult, r.content.raw_text = q.content.raw_text →
        MultiEngineExtractor._is_valid_result r = MultiEngineExtractor._is_valid_result q) ∧
    MultiEngineExtractor._is_valid_result (mkAdapterResult "") = false ∧
    MultiEngineExtractor._is_valid_result (mkAdapterResult "   ") = false ∧
    MultiEngineExtractor._is_valid_result (mkAdapterResult "a") = true := by
  refine ⟨valid_iff, ?_, by decide, by decide, by decide⟩
  intro r q h
  unfold MultiEngineExtractor._is_valid_result
  rw [h]

/-- Witness for C5 at the concrete boundary value `"a"`. -/
theorem spec_c5_validator_witness :
    MultiEngineExtractor._is_valid_result (mkAdapterResult "a") = true ∧ pyStrip "a" ≠ "" :=
  ⟨(spec_c5_validator.1 (mkAdapterResult "a")).2 (by decide), by decide⟩

/-- C6: when the analyzer cannot open the document (its `try` body raises),
it returns exactly the degraded record and never raises to the caller
(the embedding is a total function). -/
theorem spec_c6_analyzer_degraded (env : Env) (h : env.pdfOpen = none) :
    PDFAnalyzer.analyze_pdf env =
      { pages := 1, has_text := false, has_images := false,
        estimated_scan_pages := [0], file_size := 0, processing_strategy := "fallback" } := by
  simp [PDFAnalyzer.analyze_pdf, h]

/-- Witness for C6 at the concrete failing environment. -/
theorem spec_c6_analyzer_degraded_witness :
    PDFAnalyzer.analyze_pdf envNone =
      { pages := 1, has_text := false, has_images := false,
        estimated_scan_pages := [0], file_size := 0, processing_strategy := "fallback" } :=
  spec_c6_analyzer_degraded envNone rfl

theorem valid_raw_ne_empty {r : AdapterResult}
    (h : MultiEngineExtractor._is_valid_result r = true) : r.content.raw_text ≠ "" :=
  pyStrip_ne_empty_imp ((valid_iff r).mp h)

theorem failed_text_ne_empty (s : String) : "Failed to extract content from " ++ s ≠ "" := by
  intro h
  have hd : ("Failed to extract content from " ++ s).data = "".data := by rw [h]
  rw [String.data_append] at hd
  have h1 := (List.append_eq_nil.mp hd).1
  exact absurd h1 (by decide)

theorem tryEngines_eq_some {env : Env} {a : PdfAnalysis}
    {l : List (String × (Env → PdfAnalysis → Except String AdapterResult))}
    {name : String} {r : AdapterResult} (h : tryEngines env a l = some (name, r)) :
    ∃ engine, (name, engine) ∈ l ∧ engine env a = .ok r ∧
      MultiEngineExtractor._is_valid_result r = true := by
  induction l with
  | nil => simp [tryEngines] at h
  | cons p rest ih =>
    obtain ⟨pname, pengine⟩ := p
    rw [tryEngines] at h
    cases he : pengine env a with
    | error e =>
      simp only [he] at h
      obtain ⟨eng, hmem, hok, hv⟩ := ih h
      exact ⟨eng, List.mem_cons_of_mem _ hmem, hok, hv⟩
    | ok res =>
      simp only [he] at h
      by_cases hv : MultiEngineExtractor._is_valid_result res = true
      · rw [if_pos hv] at h
        obtain ⟨h1, h2⟩ := Prod.mk.injEq .. ▸ Option.some.inj h
        subst h1; subst h2
        exact ⟨pengine, List.mem_cons_self _ _, he, hv⟩
      · rw [if_neg hv] at h
        obtain ⟨eng, hmem, hok, hv2⟩ := ih h
        exact ⟨eng, List.mem_cons_of_mem _ hmem, hok, hv2⟩

theorem docling_ok_fields {env : Env} {a : PdfAnalysis} {r : AdapterResult}
    (h : MultiEngineExtractor._docling_extract env a = .ok r) :
    r.confidence = some ⟨9, 1⟩ ∧ r.metadata.text_extraction_method = "native" := by
  unfold MultiEngineExtractor._docling_extract at h
  split at h
  · cases h
  · split at h
    · cases h
    · injection h with h
      subst h
      exact ⟨rfl, rfl⟩

theorem pdfplumber_ok_fields {env : Env} {a : PdfAnalysis} {r : AdapterResult}
    (h : MultiEngineExtractor._pdfplumber_extract env a = .ok r) :
    (r.confidence = some ⟨8, 1⟩ ∨ r.confidence = some ⟨3, 1⟩) ∧
      r.metadata.text_extraction_method = "native" := by
  unfold MultiEngineExtractor._pdfplumber_extract at h
  split at h
  · cases h
  · next pdf heq =>
    injection h with h
    subst h
    refine ⟨?_, rfl⟩
    by_cases hs :
        pyStrip (pdf.pages.foldl (fun acc page => acc ++ page.text.getD "" ++ "\n") "") = "" <;>
      simp [hs]

theorem tesseract_ok_fields {env : Env} {a : PdfAnalysis} {r : AdapterResult}
    (h : MultiEngineExtractor._tesseract_extract env a = .ok r) :
    r.confidence = some ⟨6, 1⟩ ∧ r.metadata.text_extraction_method = "ocr" ∧
      r.content.raw_text = "OCR extraction placeholder - implementation needed" := by
  unfold MultiEngineExtractor._tesseract_extract at h
  split at h
  · cases h
  · injection h with h
    subst h
    exact ⟨rfl, rfl, rfl⟩

/-- C1: for every environment (nonexistent file, empty file, non-PDF file,
valid PDF, zero-page PDF, any engine availability and behaviour), `extract`
returns a well-formed result; the embedding is a total function, which is
the never-raises contract. -/
theorem spec_c1_totality (env : Env) : wellFormedResult (MultiEngineExtractor.extract env) := by
  rcases htry : tryEngines env (PDFAnalyzer.analyze_pdf env) MultiEngineExtractor.engines with _ | ⟨name, r⟩
  · simp only [MultiEngineExtractor.extract, htry]
    refine ⟨Or.inr rfl, ?_, ?_, rfl, Or.inr (Or.inr rfl), failed_text_ne_empty env.fileName⟩
    · norm_num [PyFloat.toRat]
    · norm_num [PyFloat.toRat]
  · obtain ⟨eng, hmem, hok, hv⟩ := tryEngines_eq_some htry
    have hconf : r.confidence = some ⟨9, 1⟩ ∨ r.confidence = some ⟨8, 1⟩ ∨
        r.confidence = some ⟨3, 1⟩ ∨ r.confidence = some ⟨6, 1⟩ := by
      simp only [MultiEngineExtractor.engines, List.mem_cons, List.not_mem_nil, or_false,
        Prod.mk.injEq] at hmem
      rcases hmem with ⟨_, he⟩ | ⟨_, he⟩ | ⟨_, he⟩ <;> subst he
      · exact Or.inl (docling_ok_fields hok).1
      · rcases (pdfplumber_ok_fields hok).1 with h8 | h3
        · exact Or.inr (Or.inl h8)
        · exact Or.inr (Or.inr (Or.inl h3))
      · exact Or.inr (Or.inr (Or.inr (tesseract_ok_fields hok).1))
    have hmeth : r.metadata.text_extraction_method = "native" ∨
        r.metadata.text_extraction_method = "ocr" := by
      simp only [MultiEngineExtractor.engines, List.mem_cons, List.not_mem_nil, or_false,
        Prod.mk.injEq] at hmem
      rcases hmem with ⟨_, he⟩ | ⟨_, he⟩ | ⟨_, he⟩ <;> subst he
      · exact Or.inl (docling_ok_fields hok).2
      · exact Or.inl (pdfplumber_ok_fields hok).2
      · exact Or.inr (tesseract_ok_fields hok).2.1
    simp only [MultiEngineExtractor.extract, htry]
    refine ⟨Or.inl rfl, ?_, ?_, rfl, ?_, valid_raw_ne_empty hv⟩
    · rcases hconf with h | h | h | h <;> rw [h] <;> norm_num [PyFloat.toRat, Option.getD]
    · rcases hconf with h | h | h | h <;> rw [h] <;> norm_num [PyFloat.toRat, Option.getD]
    · rcases hmeth with h | h
      · exact Or.inl h
      · exact Or.inr (Or.inl h)

/-- C3: engines are tried in the fixed order docling, pdfplumber,
tesseract; the first engine returning a valid result wins regardless of
everything after it in the list (later engines are never invoked), and in
particular a valid docling result makes `engine_used = ["docling"]`. -/
theorem spec_c3_priority :
    MultiEngineExtractor.engines.map Prod.fst = ["docling", "pdfplumber", "tesseract"] ∧
    (∀ (env : Env) (a : PdfAnalysis) (name : String)
        (engine : Env → PdfAnalysis → Except String AdapterResult)
        (rest : List (String × (Env → PdfAnalysis → Except String AdapterResult)))
        (r : AdapterResult),
      engine env a = .ok r → MultiEngineExtractor._is_valid_result r = true →
      tryEngines env a ((name, engine) :: rest) = some (name, r)) ∧
    (∀ (env : Env) (r : AdapterResult),
      MultiEngineExtractor._docling_extract env (PDFAnalyzer.analyze_pdf env) = .ok r →
      MultiEngineExtractor._is_valid_result r = true →
      (MultiEngineExtractor.extract env).extraction_info.engine_used = ["docling"] ∧
      (MultiEngineExtractor.extract env).extraction_info.status = "success") := by
  refine ⟨rfl, ?_, ?_⟩
  · intro env a name engine rest r hok hv
    rw [tryEngines]
    simp only [hok, hv, if_true]
  · intro env r hok hv
    have htry : tryEngines env (PDFAnalyzer.analyze_pdf env) MultiEngineExtractor.engines =
        some ("docling", r) := by
      rw [MultiEngineExtractor.engines, tryEngines]
      simp only [hok, hv, if_true]
    simp [MultiEngineExtractor.extract, htry]

/-- Witness for C3 at an environment where docling succeeds. -/
theorem spec_c3_priority_witness :
    (MultiEngineExtractor.extract envDocling).extraction_info.engine_used = ["docling"] ∧
    (MultiEngineExtractor.extract envDocling).extraction_info.status = "success" :=
  spec_c3_priority.2.2 envDocling rDocling rfl rfl

/-- C4: if no engine yields a valid result, `extract` returns exactly the
synthesized fallback record: status `"fallback"`, `engines_used`
`["fallback"]`, confidence `0.1`, a diagnostic `raw_text` naming the
source file, empty collections, `total_pages` from the analysis and
extraction method `"fallback"`. -/
theorem spec_c4_fallback (env : Env)
    (h : tryEngines env (PDFAnalyzer.analyze_pdf env) MultiEngineExtractor.engines = none) :
    MultiEngineExtractor.extract env =
      { extraction_info :=
          { file_name := env.fileName,
            processing_time := pyFormat2f env.elapsedCentis,
            engine_used := ["fallback"],
            status := "fallback",
            confidence := ⟨1, 1⟩ },
        content := { raw_text := "Failed to extract content from " ++ env.fileName,
                     pages := [], tables := [], images := [] },
        metadata := { total_pages := (PDFAnalyzer.analyze_pdf env).pages,
                      text_extraction_method := "fallback" } } := by
  simp only [MultiEngineExtractor.extract, h]

/-- Witness for C4 at the environment where every engine fails. -/
theorem spec_c4_fallback_witness :
    MultiEngineExtractor.extract envNone =
      { extraction_info :=
          { file_name := "doc.pdf", processing_time := "0.07s",
            engine_used := ["fallback"], status := "fallback", confidence := ⟨1, 1⟩ },
        content := { raw_text := "Failed to extract content from doc.pdf",
                     pages := [], tables := [], images := [] },
        metadata := { total_pages := 1, text_extraction_method := "fallback" } } := by
  rw [spec_c4_fallback envNone rfl]
  rfl

/-- C7: on the success path the result is assembled exactly from the
winning engine's name and adapter output: source file name, elapsed time
formatted to two decimals, singleton `engines_used`, status `"success"`,
confidence from the adapter (default `0.8` when absent), and content and
metadata copied verbatim. -/
theorem spec_c7_success_shape (env : Env) (name : String) (r : AdapterResult)
    (h : tryEngines env (PDFAnalyzer.analyze_pdf env) MultiEngineExtractor.engines =
      some (name, r)) :
    MultiEngineExtractor.extract env =
      { extraction_info :=
          { file_name := env.fileName,
            processing_time := pyFormat2f env.elapsedCentis,
            engine_used := [name],
            status := "success",
            confidence := r.confidence.getD ⟨8, 1⟩ },
        content := r.content,
        metadata := r.metadata } ∧
    (r.confidence = none →
      (MultiEngineExtractor.extract env).extraction_info.confidence = ⟨8, 1⟩) ∧
    (∀ cf, r.confidence = some cf →
      (MultiEngineExtractor.extract env).extraction_info.confidence = cf) := by
  refine ⟨by simp only [MultiEngineExtractor.extract, h], ?_, ?_⟩
  · intro hn
    simp only [MultiEngineExtractor.extract, h, hn, Option.getD_none]
  · intro cf hc
    simp only [MultiEngineExtractor.extract, h, hc, Option.getD_some]

/-- Witness for C7 at an environment where docling succeeds. -/
theorem spec_c7_success_shape_witness :
    MultiEngineExtractor.extract envDocling =
      { extraction_info :=
          { file_name := "doc.pdf", processing_time := "0.07s",
            engine_used := ["docling"], status := "success", confidence := ⟨9, 1⟩ },
        content := { raw_text := "hello world", pages := [], tables := [], images := [] },
        metadata := { total_pages := 1, text_extraction_method := "native" } } ∧
    (MultiEngineExtractor.extract envDocling).extraction_info.confidence = ⟨9, 1⟩ := by
  refine ⟨?_, (spec_c7_success_shape envDocling "docling" rDocling rfl).2.2 ⟨9, 1⟩ rfl⟩
  rw [(spec_c7_success_shape envDocling "docling" rDocling rfl).1]
  rfl

/-- C8: the analyzer inspects exactly `min 5 total` pages — the first ones
in order — five for documents longer than five pages and all of them
otherwise; `estimated_scan_pages` only holds indices of sampled pages; and
the analysis depends on nothing beyond the first five pages, the page
count and the file size. -/
theorem spec_c8_sampling (env : Env) (pdf : PdfDoc) (h : env.pdfOpen = some pdf) :
    (sampledPages pdf).length = min 5 pdf.pages.length ∧
    (5 < pdf.pages.length → (sampledPages pdf).length = 5) ∧
    (pdf.pages.length ≤ 5 → (sampledPages pdf).length = pdf.pages.length) ∧
    sampledPages pdf ++ pdf.pages.drop (min 5 pdf.pages.length) = pdf.pages ∧
    (∀ i ∈ (PDFAnalyzer.analyze_pdf env).estimated_scan_pages, i < min 5 pdf.pages.length) ∧
    (∀ (env' : Env) (pdf' : PdfDoc), env'.pdfOpen = some pdf' →
      pdf'.pages.length = pdf.pages.length → pdf'.pages.take 5 = pdf.pages.take 5 →
      env'.fileSize = env.fileSize →
      PDFAnalyzer.analyze_pdf env' = PDFAnalyzer.analyze_pdf env) := by
  have hlen : (sampledPages pdf).length = min 5 pdf.pages.length := by
    simp only [sampledPages, List.length_take]
    omega
  refine ⟨hlen, ?_, ?_, List.take_append_drop _ _, ?_, ?_⟩
  · intro h5
    rw [hlen]
    omega
  · intro h5
    rw [hlen]
    omega
  · intro i hi
    simp only [PDFAnalyzer.analyze_pdf, h, List.mem_map, List.mem_filter] at hi
    obtain ⟨⟨j, p⟩, ⟨hmem, _⟩, hj⟩ := hi
    have hfst := List.fst_lt_of_mem_enum hmem
    rw [hlen] at hfst
    dsimp only at hfst hj
    omega
  · intro env' pdf' h' hl ht hs
    have h5 : min 5 pdf.pages.length ≤ 5 := Nat.min_le_left _ _
    have hsamp : sampledPages pdf' = sampledPages pdf := by
      unfold sampledPages
      rw [hl]
      calc pdf'.pages.take (min 5 pdf.pages.length)
          = (pdf'.pages.take 5).take (min 5 pdf.pages.length) := by
            rw [List.take_take, Nat.min_eq_left h5]
        _ = (pdf.pages.take 5).take (min 5 pdf.pages.length) := by rw [ht]
        _ = pdf.pages.take (min 5 pdf.pages.length) := by
            rw [List.take_take, Nat.min_eq_left h5]
    simp only [PDFAnalyzer.analyze_pdf, h, h', hsamp, hl, hs]

/-- Witness for C8 at a six-page document. -/
theorem spec_c8_sampling_witness :
    (sampledPages { pages := List.replicate 6 (samplePage "x") }).length = 5 ∧
    (∀ i ∈ (PDFAnalyzer.analyze_pdf envSixPages).estimated_scan_pages, i < 5) :=
  ⟨(spec_c8_sampling envSixPages { pages := List.replicate 6 (samplePage "x") } rfl).2.1
      (by decide),
   (spec_c8_sampling envSixPages { pages := List.replicate 6 (samplePage "x") } rfl).2.2.2.2.1⟩

theorem tryEngines_append (env : Env) (a : PdfAnalysis)
    (l1 l2 : List (String × (Env → PdfAnalysis → Except String AdapterResult))) :
    tryEngines env a (l1 ++ l2) =
      match tryEngines env a l1 with
      | some x => some x
      | none => tryEngines env a l2 := by
  induction l1 with
  | nil => simp [tryEngines]
  | cons p rest ih =>
    obtain ⟨pn, pe⟩ := p
    rw [List.cons_append, tryEngines, tryEngines]
    cases he : pe env a with
    | error e => simpa using ih
    | ok res =>
      by_cases hv : MultiEngineExtractor._is_valid_result res = true <;> simp [hv, ih]

theorem tryEngines_isSome_of_last {env : Env} {a : PdfAnalysis}
    {l : List (String × (Env → PdfAnalysis → Except String AdapterResult))}
    (hlast : ∃ name engine r, (name, engine) ∈ l ∧ engine env a = .ok r ∧
      MultiEngineExtractor._is_valid_result r = true) :
    (tryEngines env a l).isSome = true := by
  induction l with
  | nil => simp at hlast
  | cons p rest ih =>
    obtain ⟨pn, pe⟩ := p
    obtain ⟨name, engine, r, hmem, hok, hv⟩ := hlast
    rw [tryEngines]
    rcases List.mem_cons.mp hmem with hhd | htl
    · obtain ⟨h1, h2⟩ := Prod.mk.injEq .. ▸ hhd
      subst h1
      cases he : pe env a with
      | error e => rw [← h2] at he; rw [he] at hok; cases hok
      | ok res =>
        rw [← h2] at he
        rw [he] at hok
        injection hok with hok
        subst hok
        simp [hv]
    · cases he : pe env a with
      | error e => exact ih ⟨name, engine, r, htl, hok, hv⟩
      | ok res =>
        by_cases hres : MultiEngineExtractor._is_valid_result res = true
        · simp [hres]
        · simp only [hres, if_false]
          exact ih ⟨name, engine, r, htl, hok, hv⟩

/-- C10: whenever OCR is available in the process, the fallback branch of
`extract` is unreachable: the tesseract adapter returns a constant
placeholder that always passes validation, so the result's status is never
`"fallback"`; and when both earlier engines fail, the result carries
confidence `0.6` and method `"ocr"` although no OCR was performed. -/
theorem spec_c10_ocr_backstop (env : Env) (h : env.tesseractAvailable = true) :
    (MultiEngineExtractor.extract env).extraction_info.status ≠ "fallback" ∧
    (tryEngines env (PDFAnalyzer.analyze_pdf env) (MultiEngineExtractor.engines.take 2) = none →
      (MultiEngineExtractor.extract env).extraction_info.engine_used = ["tesseract"] ∧
      (MultiEngineExtractor.extract env).extraction_info.confidence = ⟨6, 1⟩ ∧
      (MultiEngineExtractor.extract env).metadata.text_extraction_method = "ocr" ∧
      (MultiEngineExtractor.extract env).content.raw_text =
        "OCR extraction placeholder - implementation needed") := by
  have htess : MultiEngineExtractor._tesseract_extract env (PDFAnalyzer.analyze_pdf env) =
      .ok { content := { raw_text := "OCR extraction placeholder - implementation needed",
                         pages := [], tables := [], images := [] },
            metadata := { total_pages := (PDFAnalyzer.analyze_pdf env).pages,
                          text_extraction_method := "ocr" },
            confidence := some ⟨6, 1⟩ } := by
    simp [MultiEngineExtractor._tesseract_extract, h]
  have hvalid : MultiEngineExtractor._is_valid_result
      { content := { raw_text := "OCR extraction placeholder - implementation needed",
                     pages := [], tables := [], images := [] },
        metadata := { total_pages := (PDFAnalyzer.analyze_pdf env).pages,
                      text_extraction_method := "ocr" },
        confidence := some ⟨6, 1⟩ } = true := by
    rw [valid_iff]
    show pyStrip "OCR extraction placeholder - implementation needed" ≠ ""
    decide
  constructor
  · have hmem : ("tesseract", MultiEngineExtractor._tesseract_extract) ∈
        MultiEngineExtractor.engines := by
      rw [MultiEngineExtractor.engines]
      exact List.mem_cons_of_mem _ (List.mem_cons_of_mem _ (List.mem_cons_self _ _))
    have hsome := tryEngines_isSome_of_last
      ⟨"tesseract", MultiEngineExtractor._tesseract_extract, _, hmem, htess, hvalid⟩
    obtain ⟨⟨name, r⟩, hsome⟩ := Option.isSome_iff_exists.mp hsome
    simp [MultiEngineExtractor.extract, hsome]
  · intro h2
    have hsplit : MultiEngineExtractor.engines =
        MultiEngineExtractor.engines.take 2 ++
          [("tesseract", MultiEngineExtractor._tesseract_extract)] := rfl
    have htry : tryEngines env (PDFAnalyzer.analyze_pdf env) MultiEngineExtractor.engines =
        some ("tesseract",
          { content := { raw_text := "OCR extraction placeholder - implementation needed",
                         pages := [], tables := [], images := [] },
            metadata := { total_pages := (PDFAnalyzer.analyze_pdf env).pages,
                          text_extraction_method := "ocr" },
            confidence := some ⟨6, 1⟩ }) := by
      rw [hsplit, tryEngines_append, h2]
      rw [tryEngines]
      simp only [htess, hvalid, if_true]
    simp [MultiEngineExtractor.extract, htry]

/-- Witness for C10 at the environment where only tesseract is available. -/
theorem spec_c10_ocr_backstop_witness :
    (MultiEngineExtractor.extract envTess).extraction_info.status ≠ "fallback" ∧
    (MultiEngineExtractor.extract envTess).extraction_info.engine_used = ["tesseract"] ∧
    (MultiEngineExtractor.extract envTess).extraction_info.confidence = ⟨6, 1⟩ ∧
    (MultiEngineExtractor.extract envTess).metadata.text_extraction_method = "ocr" :=
  ⟨(spec_c10_ocr_backstop envTess rfl).1,
   ((spec_c10_ocr_backstop envTess rfl).2 rfl).1,
   ((spec_c10_ocr_backstop envTess rfl).2 rfl).2.1,
   ((spec_c10_ocr_backstop envTess rfl).2 rfl).2.2.1⟩

/-! ## JSON round-trip helper lemmas -/

theorem json_sizeOf_pos (j : Json) : 0 < sizeOf j := by
  cases j <;> simp_arith

theorem sizeJ_pos (j : Json) : 1 ≤ sizeJ j := by
  cases j <;> simp [sizeJ]

theorem skipWs_nil : skipWs [] = [] := rfl

theorem skipWs_cons_not {c : Char} (h : isJsonWs c = false) (cs : List Char) :
    skipWs (c :: cs) = c :: cs := by
  simp [skipWs, List.dropWhile_cons, h]

theorem skipWs_cons_ws {c : Char} (h : isJsonWs c = true) (cs : List Char) :
    skipWs (c :: cs) = skipWs cs := by
  simp [skipWs, List.dropWhile_cons, h]

theorem skipWs_append_ws {w : List Char} (h : ∀ c ∈ w, isJsonWs c = true) (cs : List Char) :
    skipWs (w ++ cs) = skipWs cs := by
  induction w with
  | nil => rfl
  | cons c t ih =>
    rw [List.cons_append, skipWs_cons_ws (h c (List.mem_cons_self _ _))]
    exact ih fun d hd => h d (List.mem_cons_of_mem _ hd)

theorem indL_ws (L : Nat) : ∀ c ∈ indL L, isJsonWs c = true := by
  intro c hc
  rw [List.eq_of_mem_replicate hc]
  rfl

theorem parseVal_ws {w : List Char} (h : ∀ c ∈ w, isJsonWs c = true)
    (pf : Nat) (cs : List Char) : parseVal pf (w ++ cs) = parseVal pf cs := by
  cases pf with
  | zero => rfl
  | succ p => simp only [parseVal, skipWs_append_ws h]

theorem parseArrItems_ws {w : List Char} (h : ∀ c ∈ w, isJsonWs c = true)
    (pf : Nat) (cs : List Char) : parseArrItems pf (w ++ cs) = parseArrItems pf cs := by
  cases pf with
  | zero => rfl
  | succ p => simp only [parseArrItems, parseVal_ws h]

theorem parseObjItems_ws {w : List Char} (h : ∀ c ∈ w, isJsonWs c = true)
    (pf : Nat) (cs : List Char) : parseObjItems pf (w ++ cs) = parseObjItems pf cs := by
  cases pf with
  | zero => rfl
  | succ p => simp only [parseObjItems, skipWs_append_ws h]

theorem not_ws_of_numChar {c : Char} (h : isNumChar c = true) : isJsonWs c = false := by
  cases hw : isJsonWs c
  · rfl
  · exfalso
    have hc : c = ' ' ∨ c = '\n' ∨ c = '\t' ∨ c = '\r' := by
      simpa [isJsonWs, or_assoc] using hw
    rcases hc with h1 | h1 | h1 | h1 <;> subst h1 <;> exact absurd h (by decide)

theorem ne_of_numChar {c x : Char} (h : isNumChar c = true) (hx : isNumChar x = false) :
    c ≠ x := by
  intro he
  subst he
  simp [hx] at h

theorem takeWhile_append_all {p : Char → Bool} :
    ∀ {a : List Char}, (∀ c ∈ a, p c = true) → ∀ b, (a ++ b).takeWhile p = a ++ b.takeWhile p := by
  intro a
  induction a with
  | nil => intro _ b; rfl
  | cons c t ih =>
    intro h b
    have hc := h c (List.mem_cons_self _ _)
    simp [List.takeWhile_cons, hc, ih (fun d hd => h d (List.mem_cons_of_mem _ hd)) b]

theorem dropWhile_append_all {p : Char → Bool} :
    ∀ {a : List Char}, (∀ c ∈ a, p c = true) → ∀ b, (a ++ b).dropWhile p = b.dropWhile p := by
  intro a
  induction a with
  | nil => intro _ b; rfl
  | cons c t ih =>
    intro h b
    have hc := h c (List.mem_cons_self _ _)
    simp [List.dropWhile_cons, hc, ih (fun d hd => h d (List.mem_cons_of_mem _ hd)) b]

theorem takeWhile_delim {b : List Char} (h : DelimOk b) : b.takeWhile isNumChar = [] := by
  cases b with
  | nil => rfl
  | cons d t =>
    have hd : isNumChar d = false := h
    simp [List.takeWhile_cons, hd]

theorem dropWhile_delim {b : List Char} (h : DelimOk b) : b.dropWhile isNumChar = b := by
  cases b with
  | nil => rfl
  | cons d t =>
    have hd : isNumChar d = false := h
    simp [List.dropWhile_cons, hd]

theorem delimOk_of_skipWs {cs : List Char} {d : Char} {t : List Char}
    (h : skipWs cs = d :: t) (hd : isNumChar d = false) : DelimOk cs := by
  cases cs with
  | nil => simp [skipWs] at h
  | cons c r =>
    show isNumChar c = false
    cases hw : isJsonWs c
    · rw [skipWs_cons_not hw] at h
      injection h with h1 _
      subst h1
      exact hd
    · cases hn : isNumChar c
      · rfl
      · exact absurd (not_ws_of_numChar hn) (by simp [hw])


theorem hexRound : ∀ n : Nat, n < 32 →
    hexDecVal (hexDigit (n / 4096 % 16)) * 4096 + hexDecVal (hexDigit (n / 256 % 16)) * 256 +
      hexDecVal (hexDigit (n / 16 % 16)) * 16 + hexDecVal (hexDigit (n % 16)) = n := by
  decide

theorem parseStr_esc : ∀ (cs rest : List Char),
    parseStrChars (escList cs ++ '"' :: rest) = some (cs, rest) := by
  intro cs
  induction cs with
  | nil =>
    intro rest
    show parseStrChars ('"' :: rest) = some ([], rest)
    unfold parseStrChars
    simp
  | cons c t ih =>
    intro rest
    rw [escList, List.append_assoc]
    by_cases h1 : c = '"'
    · subst h1
      show parseStrChars ('\\' :: '"' :: _) = _
      unfold parseStrChars
      simp [unescapeChar, ih]
    by_cases h2 : c = '\\'
    · subst h2
      show parseStrChars ('\\' :: '\\' :: _) = _
      unfold parseStrChars
      simp [unescapeChar, ih]
    by_cases h3 : c = '\n'
    · subst h3
      show parseStrChars ('\\' :: 'n' :: _) = _
      unfold parseStrChars
      simp [unescapeChar, ih]
    by_cases h4 : c = '\t'
    · subst h4
      show parseStrChars ('\\' :: 't' :: _) = _
      unfold parseStrChars
      simp [unescapeChar, ih]
    by_cases h5 : c = '\r'
    · subst h5
      show parseStrChars ('\\' :: 'r' :: _) = _
      unfold parseStrChars
      simp [unescapeChar, ih]
    by_cases h6 : c = Char.ofNat 8
    · subst h6
      show parseStrChars ('\\' :: 'b' :: _) = _
      unfold parseStrChars
      simp [unescapeChar, ih]
    by_cases h7 : c = Char.ofNat 12
    · subst h7
      show parseStrChars ('\\' :: 'f' :: _) = _
      unfold parseStrChars
      simp [unescapeChar, ih]
    by_cases h8 : c.toNat < 32
    · have hesc : escChar c = '\\' :: 'u' :: hex4 c.toNat := by
        simp [escChar, h1, h2, h3, h4, h5, h6, h7, h8]
      rw [hesc, hex4]
      show parseStrChars ('\\' :: 'u' :: _) = _
      unfold parseStrChars
      simp [ih, hexRound c.toNat h8, Char.ofNat_toNat]
    · have hesc : escChar c = [c] := by
        simp [escChar, h1, h2, h3, h4, h5, h6, h7, h8]
      rw [hesc]
      show parseStrChars (c :: _) = _
      unfold parseStrChars
      simp [h1, h2, ih]

theorem numTok_cases {s : String} (h : numTokOkB s = true) :
    ∃ c t, s.data = c :: t ∧ (c.isDigit = true ∨ c = '-') ∧
      ∀ d ∈ c :: t, isNumChar d = true := by
  unfold numTokOkB at h
  cases hs : s.data with
  | nil => rw [hs] at h; cases h
  | cons c t =>
    rw [hs] at h
    simp only [Bool.and_eq_true, Bool.or_eq_true, decide_eq_true_eq, List.all_eq_true] at h
    exact ⟨c, t, rfl, h.1, h.2⟩

theorem okL_mem : ∀ {xs : List Json}, okL xs = true → ∀ x ∈ xs, okJ x = true := by
  intro xs
  induction xs with
  | nil => intro _ x hx; cases hx
  | cons y ys ih =>
    intro h x hx
    have h2 : okJ y = true ∧ okL ys = true := by simpa [okL, Bool.and_eq_true] using h
    rcases List.mem_cons.mp hx with rfl | hx2
    · exact h2.1
    · exact ih h2.2 x hx2

theorem okK_mem : ∀ {kvs : List (String × Json)}, okK kvs = true →
    ∀ kv ∈ kvs, okJ kv.2 = true := by
  intro kvs
  induction kvs with
  | nil => intro _ kv hkv; cases hkv
  | cons e es ih =>
    intro h kv hkv
    obtain ⟨k, v⟩ := e
    have h2 : okJ v = true ∧ okK es = true := by simpa [okK, Bool.and_eq_true] using h
    rcases List.mem_cons.mp hkv with rfl | hkv2
    · exact h2.1
    · exact ih h2.2 kv hkv2

theorem dumpL_head (L : Nat) (j : Json) (hok : okJ j = true) :
    ∃ c t, dumpL L j = c :: t ∧ isJsonWs c = false ∧ c ≠ ']' := by
  cases j with
  | null => exact ⟨'n', ['u', 'l', 'l'], by simp [dumpL], by decide, by decide⟩
  | bool b =>
    cases b
    · exact ⟨'f', ['a', 'l', 's', 'e'], by simp [dumpL], by decide, by decide⟩
    · exact ⟨'t', ['r', 'u', 'e'], by simp [dumpL], by decide, by decide⟩
  | num s =>
    have hn : numTokOkB s = true := by simpa [okJ] using hok
    obtain ⟨c, t, hs, _, hall⟩ := numTok_cases hn
    have hc : isNumChar c = true := hall c (List.mem_cons_self _ _)
    exact ⟨c, t, by simp [dumpL, hs], not_ws_of_numChar hc, ne_of_numChar hc (by decide)⟩
  | str s =>
    exact ⟨'"', escList s.data ++ ['"'], by simp [dumpL, quoteL], by decide, by decide⟩
  | arr xs =>
    cases xs with
    | nil => exact ⟨'[', [']'], by simp [dumpL], by decide, by decide⟩
    | cons x xs =>
      exact ⟨'[', '\n' :: (dumpItems (L + 1) x xs ++ '\n' :: (indL L ++ [']'])),
        by simp [dumpL], by decide, by decide⟩
  | obj kvs =>
    cases kvs with
    | nil => exact ⟨lbrace, [rbrace], by simp [dumpL], by decide, by decide⟩
    | cons kv kvs =>
      exact ⟨lbrace, '\n' :: (dumpKvs (L + 1) kv kvs ++ '\n' :: (indL L ++ [rbrace])),
        by simp [dumpL], by decide, by decide⟩

theorem parseNum_tok {s : String} (h : numTokOkB s = true) (rest : List Char)
    (hrest : DelimOk rest) : parseNum (s.data ++ rest) = some (.num s, rest) := by
  obtain ⟨c, t, hs, _, hall⟩ := numTok_cases h
  have hall2 : ∀ d ∈ s.data, isNumChar d = true := by rw [hs]; exact hall
  unfold parseNum
  rw [takeWhile_append_all hall2 rest, takeWhile_delim hrest, List.append_nil,
    dropWhile_append_all hall2 rest, dropWhile_delim hrest, hs]
  show some (Json.num (String.mk (c :: t)), rest) = some (Json.num s, rest)
  rw [← hs]

theorem parseArr_ok (M : Nat) :
    ∀ (xs : List Json) (x : Json) (pf : Nat) (close rest : List Char),
      (∀ z ∈ x :: xs, okJ z = true) →
      (∀ z ∈ x :: xs, ParsesGood z) →
      sizeL (x :: xs) ≤ pf →
      skipWs close = ']' :: rest →
      parseArrItems pf (dumpItems M x xs ++ close) = some (x :: xs, rest) := by
  intro xs
  induction xs with
  | nil =>
    intro x pf close rest hok hgood hpf hclose
    have hx1 : 1 ≤ sizeJ x := sizeJ_pos x
    have hszl : sizeL [x] = 1 + sizeJ x := by simp [sizeL]
    obtain ⟨p, rfl⟩ : ∃ p, pf = p + 1 := ⟨pf - 1, by omega⟩
    have hdelim : DelimOk close := delimOk_of_skipWs hclose (by decide)
    have hval : parseVal p (dumpL M x ++ close) = some (x, close) :=
      hgood x (List.mem_cons_self _ _) p M close (by omega) hdelim
    simp only [parseArrItems]
    rw [dumpItems]
    simp only [itemsSep, List.append_nil, List.append_assoc]
    rw [parseVal_ws (indL_ws M), hval]
    simp [hclose]
  | cons y ys ih =>
    intro x pf close rest hok hgood hpf hclose
    have hx1 : 1 ≤ sizeJ x := sizeJ_pos x
    have hszl : sizeL (x :: y :: ys) = 1 + sizeJ x + sizeL (y :: ys) := by simp [sizeL]
    obtain ⟨p, rfl⟩ : ∃ p, pf = p + 1 := ⟨pf - 1, by omega⟩
    have hdelim : DelimOk (',' :: '\n' :: (dumpItems M y ys ++ close)) :=
      (by decide : isNumChar ',' = false)
    have hval : parseVal p (dumpL M x ++ (',' :: '\n' :: (dumpItems M y ys ++ close))) =
        some (x, ',' :: '\n' :: (dumpItems M y ys ++ close)) :=
      hgood x (List.mem_cons_self _ _) p M _ (by omega) hdelim
    have harr : parseArrItems p ('\n' :: (dumpItems M y ys ++ close)) = some (y :: ys, rest) := by
      rw [show ('\n' :: (dumpItems M y ys ++ close)) = ['\n'] ++ (dumpItems M y ys ++ close)
          from rfl]
      rw [parseArrItems_ws (by intro c hc; simp at hc; subst hc; rfl)]
      exact ih y p close rest (fun z hz => hok z (List.mem_cons_of_mem _ hz))
        (fun z hz => hgood z (List.mem_cons_of_mem _ hz)) (by omega) hclose
    simp only [parseArrItems]
    rw [dumpItems]
    simp only [itemsSep, List.append_assoc, List.cons_append]
    rw [parseVal_ws (indL_ws M), hval]
    simp only []
    rw [skipWs_cons_not (by decide)]
    simp [harr]

theorem rbrace_ne_comma : ¬(rbrace = ',') := by decide

theorem parseObj_ok (M : Nat) :
    ∀ (kvs : List (String × Json)) (k : String) (v : Json) (pf : Nat) (close rest : List Char),
      (∀ kv ∈ (k, v) :: kvs, okJ kv.2 = true) →
      (∀ kv ∈ (k, v) :: kvs, ParsesGood kv.2) →
      sizeK ((k, v) :: kvs) ≤ pf →
      skipWs close = rbrace :: rest →
      parseObjItems pf (dumpKvs M (k, v) kvs ++ close) = some ((k, v) :: kvs, rest) := by
  intro kvs
  induction kvs with
  | nil =>
    intro k v pf close rest hok hgood hpf hclose
    have hv1 : 1 ≤ sizeJ v := sizeJ_pos v
    have hszk : sizeK [(k, v)] = 1 + sizeJ v := by simp [sizeK]
    obtain ⟨p, rfl⟩ : ∃ p, pf = p + 1 := ⟨pf - 1, by omega⟩
    have hdelim : DelimOk close := delimOk_of_skipWs hclose (by decide)
    have hval : parseVal p (dumpL M v ++ close) = some (v, close) :=
      hgood (k, v) (List.mem_cons_self _ _) p M close (by show sizeJ v ≤ p; omega) hdelim
    have hval2 : parseVal p (' ' :: (dumpL M v ++ close)) = some (v, close) := by
      rw [show (' ' :: (dumpL M v ++ close)) = [' '] ++ (dumpL M v ++ close) from rfl]
      rw [parseVal_ws (by intro c hc; simp at hc; subst hc; rfl), hval]
    simp only [parseObjItems]
    rw [dumpKvs]
    simp only [kvsSep, List.append_nil, quoteL, List.append_assoc, List.cons_append, List.nil_append]
    rw [skipWs_append_ws (indL_ws M), skipWs_cons_not (by decide)]
    simp only [if_pos rfl]
    rw [parseStr_esc]
    simp only []
    rw [skipWs_cons_not (by decide)]
    simp only []
    rw [hval2]
    simp only []
    rw [hclose]
    simp [rbrace_ne_comma]
  | cons e es ih =>
    intro k v pf close rest hok hgood hpf hclose
    obtain ⟨k2, v2⟩ := e
    have hv1 : 1 ≤ sizeJ v := sizeJ_pos v
    have hszk : sizeK ((k, v) :: (k2, v2) :: es) = 1 + sizeJ v + sizeK ((k2, v2) :: es) := by
      simp [sizeK]
    obtain ⟨p, rfl⟩ : ∃ p, pf = p + 1 := ⟨pf - 1, by omega⟩
    have hdelim : DelimOk (',' :: '\n' :: (dumpKvs M (k2, v2) es ++ close)) :=
      (by decide : isNumChar ',' = false)
    have hval : parseVal p (dumpL M v ++ (',' :: '\n' :: (dumpKvs M (k2, v2) es ++ close))) =
        some (v, ',' :: '\n' :: (dumpKvs M (k2, v2) es ++ close)) :=
      hgood (k, v) (List.mem_cons_self _ _) p M _ (by show sizeJ v ≤ p; omega) hdelim
    have hval2 : parseVal p
        (' ' :: (dumpL M v ++ (',' :: '\n' :: (dumpKvs M (k2, v2) es ++ close)))) =
        some (v, ',' :: '\n' :: (dumpKvs M (k2, v2) es ++ close)) := by
      rw [show (' ' :: (dumpL M v ++ (',' :: '\n' :: (dumpKvs M (k2, v2) es ++ close)))) =
          [' '] ++ (dumpL M v ++ (',' :: '\n' :: (dumpKvs M (k2, v2) es ++ close))) from rfl]
      rw [parseVal_ws (by intro c hc; simp at hc; subst hc; rfl), hval]
    have hobj : parseObjItems p ('\n' :: (dumpKvs M (k2, v2) es ++ close)) =
        some ((k2, v2) :: es, rest) := by
      rw [show ('\n' :: (dumpKvs M (k2, v2) es ++ close)) =
          ['\n'] ++ (dumpKvs M (k2, v2) es ++ close) from rfl]
      rw [parseObjItems_ws (by intro c hc; simp at hc; subst hc; rfl)]
      exact ih k2 v2 p close rest (fun z hz => hok z (List.mem_cons_of_mem _ hz))
        (fun z hz => hgood z (List.mem_cons_of_mem _ hz)) (by omega) hclose
    simp only [parseObjItems]
    rw [dumpKvs]
    simp only [kvsSep, quoteL, List.append_assoc, List.cons_append, List.nil_append]
    rw [skipWs_append_ws (indL_ws M), skipWs_cons_not (by decide)]
    simp only [if_pos rfl]
    rw [parseStr_esc]
    simp only []
    rw [skipWs_cons_not (by decide)]
    simp only []
    rw [hval2]
    simp only []
    rw [skipWs_cons_not (by decide)]
    simp [hobj]

theorem parse_dump_ok : ∀ (n : Nat) (j : Json), sizeOf j ≤ n → okJ j = true → ParsesGood j := by
  intro n
  induction n with
  | zero =>
    intro j hle _
    exact absurd hle (by have := json_sizeOf_pos j; omega)
  | succ n ih =>
    intro j hle hok pf L rest hpf hrest
    cases j with
    | null =>
      obtain ⟨p, rfl⟩ : ∃ p, pf = p + 1 := ⟨pf - 1, by simp [sizeJ] at hpf; omega⟩
      rw [show dumpL L Json.null = ['n', 'u', 'l', 'l'] by simp [dumpL]]
      simp only [parseVal, List.cons_append, List.nil_append]
      rw [skipWs_cons_not (by decide)]
      simp +decide
    | bool b =>
      obtain ⟨p, rfl⟩ : ∃ p, pf = p + 1 := ⟨pf - 1, by simp [sizeJ] at hpf; omega⟩
      cases b
      · rw [show dumpL L (Json.bool false) = ['f', 'a', 'l', 's', 'e'] by simp [dumpL]]
        simp only [parseVal, List.cons_append, List.nil_append]
        rw [skipWs_cons_not (by decide)]
        simp +decide
      · rw [show dumpL L (Json.bool true) = ['t', 'r', 'u', 'e'] by simp [dumpL]]
        simp only [parseVal, List.cons_append, List.nil_append]
        rw [skipWs_cons_not (by decide)]
        simp +decide
    | num s =>
      have hnum : numTokOkB s = true := by simpa [okJ] using hok
      obtain ⟨c, t, hs, _, hall⟩ := numTok_cases hnum
      have hc : isNumChar c = true := hall c (List.mem_cons_self _ _)
      obtain ⟨p, rfl⟩ : ∃ p, pf = p + 1 := ⟨pf - 1, by simp [sizeJ] at hpf; omega⟩
      rw [show dumpL L (Json.num s) = s.data by simp [dumpL]]
      simp only [parseVal]
      rw [hs, List.cons_append, skipWs_cons_not (not_ws_of_numChar hc)]
      dsimp only
      rw [if_neg (ne_of_numChar hc (by decide)), if_neg (ne_of_numChar hc (by decide)),
        if_neg (ne_of_numChar hc (by decide)), if_neg (ne_of_numChar hc (by decide)),
        if_neg (ne_of_numChar hc (by decide)), if_neg (ne_of_numChar hc (by decide))]
      rw [← List.cons_append, ← hs, parseNum_tok hnum rest hrest]
    | str s =>
      obtain ⟨p, rfl⟩ : ∃ p, pf = p + 1 := ⟨pf - 1, by simp [sizeJ] at hpf; omega⟩
      rw [show dumpL L (Json.str s) = '"' :: (escList s.data ++ ['"']) by simp [dumpL, quoteL]]
      simp only [parseVal, List.cons_append, List.append_assoc, List.nil_append]
      rw [skipWs_cons_not (by decide)]
      dsimp only
      rw [if_pos rfl, parseStr_esc]
      rfl
    | arr xs =>
      cases xs with
      | nil =>
        obtain ⟨p, rfl⟩ : ∃ p, pf = p + 1 := ⟨pf - 1, by simp [sizeJ] at hpf; omega⟩
        rw [show dumpL L (Json.arr []) = ['[', ']'] by simp [dumpL]]
        simp only [parseVal, List.cons_append, List.nil_append]
        rw [skipWs_cons_not (by decide)]
        simp +decide [skipWs_cons_not (show isJsonWs ']' = false by decide)]
      | cons x xs =>
        have helts : ∀ z ∈ x :: xs, okJ z = true := okL_mem (by simpa [okJ] using hok)
        have hszel : ∀ z ∈ x :: xs, sizeOf z ≤ n := by
          intro z hz
          have h1 := List.sizeOf_lt_of_mem hz
          have h2 : sizeOf (Json.arr (x :: xs)) = 1 + sizeOf (x :: xs) := by simp_arith
          omega
        have hgoods : ∀ z ∈ x :: xs, ParsesGood z :=
          fun z hz => ih z (hszel z hz) (helts z hz)
        obtain ⟨p, rfl⟩ : ∃ p, pf = p + 1 := ⟨pf - 1, by simp [sizeJ] at hpf; omega⟩
        have hpf2 : sizeL (x :: xs) ≤ p := by simp [sizeJ] at hpf; omega
        have hclose : skipWs ('\n' :: (indL L ++ (']' :: rest))) = ']' :: rest := by
          rw [skipWs_cons_ws (by decide), skipWs_append_ws (indL_ws L),
            skipWs_cons_not (by decide)]
        obtain ⟨c0, t0, hhead, hnws, hne⟩ :=
          dumpL_head (L + 1) x (helts x (List.mem_cons_self _ _))
        have hSA : parseArrItems p
            (dumpItems (L + 1) x xs ++ ('\n' :: (indL L ++ (']' :: rest)))) =
            some (x :: xs, rest) :=
          parseArr_ok (L + 1) xs x p _ rest helts hgoods hpf2 hclose
        rw [show dumpL L (Json.arr (x :: xs)) =
          '[' :: '\n' :: (dumpItems (L + 1) x xs ++ '\n' :: (indL L ++ [']']))
          by simp [dumpL]]
        simp only [parseVal, List.cons_append, List.append_assoc, List.nil_append]
        rw [skipWs_cons_not (by decide)]
        dsimp only
        rw [if_neg (by decide : ¬('[' = '"')), if_pos rfl]
        have hskip : skipWs ('\n' ::
            (dumpItems (L + 1) x xs ++ ('\n' :: (indL L ++ (']' :: rest))))) =
            c0 :: (t0 ++ (itemsSep (L + 1) xs ++ ('\n' :: (indL L ++ (']' :: rest))))) := by
          rw [skipWs_cons_ws (by decide), dumpItems]
          simp only [List.append_assoc]
          rw [skipWs_append_ws (indL_ws (L + 1)), hhead, List.cons_append,
            skipWs_cons_not hnws]
        rw [hskip]
        dsimp only
        rw [if_neg hne]
        have hlist : c0 :: (t0 ++ (itemsSep (L + 1) xs ++ ('\n' :: (indL L ++ (']' :: rest))))) =
            dumpL (L + 1) x ++ (itemsSep (L + 1) xs ++ ('\n' :: (indL L ++ (']' :: rest)))) := by
          rw [hhead, List.cons_append]
        rw [hlist]
        have harr2 : parseArrItems p (dumpL (L + 1) x ++
            (itemsSep (L + 1) xs ++ ('\n' :: (indL L ++ (']' :: rest))))) =
            some (x :: xs, rest) := by
          rw [← parseArrItems_ws (indL_ws (L + 1)) p]
          have heq : indL (L + 1) ++ (dumpL (L + 1) x ++
              (itemsSep (L + 1) xs ++ ('\n' :: (indL L ++ (']' :: rest))))) =
              dumpItems (L + 1) x xs ++ ('\n' :: (indL L ++ (']' :: rest))) := by
            rw [dumpItems]
            simp [List.append_assoc]
          rw [heq, hSA]
        rw [harr2]
        rfl
    | obj kvs =>
      cases kvs with
      | nil =>
        obtain ⟨p, rfl⟩ : ∃ p, pf = p + 1 := ⟨pf - 1, by simp [sizeJ] at hpf; omega⟩
        rw [show dumpL L (Json.obj []) = [lbrace, rbrace] by simp [dumpL]]
        simp only [parseVal, List.cons_append, List.nil_append]
        rw [skipWs_cons_not (by decide)]
        dsimp only
        rw [if_neg (by decide : ¬(lbrace = '"')), if_neg (by decide : ¬(lbrace = '[')),
          if_pos rfl]
        rw [skipWs_cons_not (by decide)]
        dsimp only
        rw [if_pos rfl]
      | cons kv kvs =>
        obtain ⟨k, v⟩ := kv
        have helts : ∀ z ∈ (k, v) :: kvs, okJ z.2 = true := okK_mem (by simpa [okJ] using hok)
        have hszel : ∀ z ∈ (k, v) :: kvs, sizeOf z.2 ≤ n := by
          intro z hz
          have h1 := List.sizeOf_lt_of_mem hz
          have h2 : sizeOf (Json.obj ((k, v) :: kvs)) = 1 + sizeOf ((k, v) :: kvs) := by
            simp_arith
          obtain ⟨zk, zv⟩ := z
          have h3 : sizeOf (zk, zv) = 1 + sizeOf zk + sizeOf zv := by simp_arith
          simp only at h1 h2 ⊢
          omega
        have hgoods : ∀ z ∈ (k, v) :: kvs, ParsesGood z.2 :=
          fun z hz => ih z.2 (hszel z hz) (helts z hz)
        obtain ⟨p, rfl⟩ : ∃ p, pf = p + 1 := ⟨pf - 1, by simp [sizeJ] at hpf; omega⟩
        have hpf2 : sizeK ((k, v) :: kvs) ≤ p := by simp [sizeJ] at hpf; omega
        have hclose : skipWs ('\n' :: (indL L ++ (rbrace :: rest))) = rbrace :: rest := by
          rw [skipWs_cons_ws (by decide), skipWs_append_ws (indL_ws L),
            skipWs_cons_not (by decide)]
        have hSK : parseObjItems p
            (dumpKvs (L + 1) (k, v) kvs ++ ('\n' :: (indL L ++ (rbrace :: rest)))) =
            some ((k, v) :: kvs, rest) :=
          parseObj_ok (L + 1) kvs k v p _ rest helts hgoods hpf2 hclose
        rw [show dumpL L (Json.obj ((k, v) :: kvs)) =
          lbrace :: '\n' :: (dumpKvs (L + 1) (k, v) kvs ++ '\n' :: (indL L ++ [rbrace]))
          by simp [dumpL]]
        simp only [parseVal, List.cons_append, List.append_assoc, List.nil_append]
        rw [skipWs_cons_not (by decide)]
        dsimp only
        rw [if_neg (by decide : ¬(lbrace = '"')), if_neg (by decide : ¬(lbrace = '[')),
          if_pos rfl]
        have hskip : skipWs ('\n' ::
            (dumpKvs (L + 1) (k, v) kvs ++ ('\n' :: (indL L ++ (rbrace :: rest))))) =
            '"' :: ((escList k.data ++ ['"']) ++
              (':' :: ' ' :: dumpL (L + 1) v ++ kvsSep (L + 1) kvs ++
                ('\n' :: (indL L ++ (rbrace :: rest))))) := by
          rw [skipWs_cons_ws (by decide), dumpKvs, quoteL]
          simp only [List.append_assoc, List.cons_append]
          rw [skipWs_append_ws (indL_ws (L + 1)), skipWs_cons_not (by decide)]
        rw [hskip]
        dsimp only
        rw [if_neg (by decide : ¬('"' = rbrace))]
        have hobj2 : parseObjItems p ('"' :: ((escList k.data ++ ['"']) ++
            (':' :: ' ' :: dumpL (L + 1) v ++ kvsSep (L + 1) kvs ++
              ('\n' :: (indL L ++ (rbrace :: rest)))))) = some ((k, v) :: kvs, rest) := by
          rw [← parseObjItems_ws (indL_ws (L + 1)) p]
          have heq : indL (L + 1) ++ ('"' :: ((escList k.data ++ ['"']) ++
              (':' :: ' ' :: dumpL (L + 1) v ++ kvsSep (L + 1) kvs ++
                ('\n' :: (indL L ++ (rbrace :: rest)))))) =
              dumpKvs (L + 1) (k, v) kvs ++ ('\n' :: (indL L ++ (rbrace :: rest))) := by
            rw [dumpKvs, quoteL]
            simp [List.append_assoc]
          rw [heq, hSK]
        rw [hobj2]
        rfl

theorem digitChar_digit : ∀ k : Nat, (digitChar k).isDigit = true := by
  intro k
  rcases k with _ | _ | _ | _ | _ | _ | _ | _ | _ | _ | k <;> rfl

theorem isNumChar_of_digit {c : Char} (h : c.isDigit = true) : isNumChar c = true := by
  simp [isNumChar, h]

theorem natDigitsAux_ok : ∀ (fuel n : Nat), n < fuel →
    natDigitsAux fuel n ≠ [] ∧ ∀ c ∈ natDigitsAux fuel n, c.isDigit = true := by
  intro fuel
  induction fuel with
  | zero => intro n h; omega
  | succ f ih =>
    intro n h
    by_cases h10 : n < 10
    · refine ⟨by simp [natDigitsAux, h10], ?_⟩
      intro c hc
      simp [natDigitsAux, h10] at hc
      subst hc
      exact digitChar_digit n
    · have hlt : n / 10 < f := by
        have h1 : n / 10 < n := Nat.div_lt_self (by omega) (by omega)
        omega
      obtain ⟨hne, hall⟩ := ih (n / 10) hlt
      refine ⟨by simp [natDigitsAux, h10, hne], ?_⟩
      intro c hc
      simp only [natDigitsAux, h10, if_false, List.mem_append, List.mem_singleton] at hc
      rcases hc with hc | hc
      · exact hall c hc
      · subst hc
        exact digitChar_digit _

theorem natDigits_ok (n : Nat) :
    natDigits n ≠ [] ∧ ∀ c ∈ natDigits n, c.isDigit = true :=
  natDigitsAux_ok (n + 1) n (Nat.lt_succ_self n)

theorem numTok_build (c : Char) (t : List Char) (hc : c.isDigit = true ∨ c = '-')
    (hall : ∀ d ∈ c :: t, isNumChar d = true) : numTokOkB (String.mk (c :: t)) = true := by
  show ((c.isDigit || decide (c = '-')) && (c :: t).all isNumChar) = true
  simp only [Bool.and_eq_true, Bool.or_eq_true, decide_eq_true_eq, List.all_eq_true]
  exact ⟨hc, hall⟩

theorem numTok_natLit (n : Nat) : numTokOkB (natLit n) = true := by
  obtain ⟨hne, hall⟩ := natDigits_ok n
  unfold natLit
  cases hd : natDigits n with
  | nil => exact absurd hd hne
  | cons c t =>
    rw [hd] at hall
    exact numTok_build c t (Or.inl (hall c (List.mem_cons_self _ _)))
      (fun d hd2 => isNumChar_of_digit (hall d hd2))

theorem decLitBody_ok (d : PyFloat) :
    ∃ c t, decLitBody d = c :: t ∧ c.isDigit = true ∧
      ∀ x ∈ c :: t, isNumChar x = true := by
  obtain ⟨hne, hall⟩ := natDigits_ok d.m.natAbs
  unfold decLitBody
  by_cases he : d.e = 0
  · cases hd : natDigits d.m.natAbs with
    | nil => exact absurd hd hne
    | cons c t =>
      rw [hd] at hall
      refine ⟨c, t ++ ['.', '0'], by simp [he], hall c (List.mem_cons_self _ _), ?_⟩
      intro x hx
      rcases List.mem_cons.mp hx with rfl | hx
      · exact isNumChar_of_digit (hall x (List.mem_cons_self _ _))
      · rcases List.mem_append.mp hx with hx | hx
        · exact isNumChar_of_digit (hall x (List.mem_cons_of_mem _ hx))
        · simp only [List.mem_cons, List.not_mem_nil, or_false] at hx
          rcases hx with rfl | rfl <;> decide
  · have hdigs : ∀ x ∈ List.replicate (d.e + 1 - (natDigits d.m.natAbs).length) '0' ++
        natDigits d.m.natAbs, x.isDigit = true := by
      intro x hx
      rcases List.mem_append.mp hx with hx | hx
      · rw [List.eq_of_mem_replicate hx]; decide
      · exact hall x hx
    have hlenpad : (List.replicate (d.e + 1 - (natDigits d.m.natAbs).length) '0' ++
        natDigits d.m.natAbs).length =
        d.e + 1 - (natDigits d.m.natAbs).length + (natDigits d.m.natAbs).length := by
      simp
    have hlen1 : 1 ≤ (natDigits d.m.natAbs).length := by
      cases hd : natDigits d.m.natAbs with
      | nil => exact absurd hd hne
      | cons c t => simp
    have hkpos : 1 ≤ (List.replicate (d.e + 1 - (natDigits d.m.natAbs).length) '0' ++
        natDigits d.m.natAbs).length - d.e := by
      rw [hlenpad]; omega
    cases hp : List.replicate (d.e + 1 - (natDigits d.m.natAbs).length) '0' ++
        natDigits d.m.natAbs with
    | nil => rw [hp] at hlenpad; simp at hlenpad; omega
    | cons p0 pt =>
      rw [hp] at hkpos
      obtain ⟨kk, hkk⟩ : ∃ kk, (p0 :: pt).length - d.e = kk + 1 :=
        ⟨(p0 :: pt).length - d.e - 1, by omega⟩
      have hp0 : p0.isDigit = true := by
        have : p0 ∈ p0 :: pt := List.mem_cons_self _ _
        rw [← hp] at this
        exact hdigs p0 this
      refine ⟨p0, pt.take kk ++ '.' :: (p0 :: pt).drop ((p0 :: pt).length - d.e),
        ?_, hp0, ?_⟩
      · simp only [he, if_false, hp, hkk, List.take_succ_cons, List.cons_append]
      · intro x hx
        have hmem : ∀ y ∈ p0 :: pt, isNumChar y = true := by
          intro y hy
          rw [← hp] at hy
          exact isNumChar_of_digit (hdigs y hy)
        rcases List.mem_cons.mp hx with rfl | hx
        · exact hmem x (List.mem_cons_self _ _)
        · rcases List.mem_append.mp hx with hx | hx
          · exact hmem x (List.mem_cons_of_mem _ (List.mem_of_mem_take hx))
          · rcases List.mem_cons.mp hx with rfl | hx
            · decide
            · exact hmem x (List.mem_of_mem_drop hx)

theorem numTok_decLit (d : PyFloat) : numTokOkB (decLit d) = true := by
  obtain ⟨c, t, hbody, hdig, hall⟩ := decLitBody_ok d
  unfold decLit
  by_cases hm : d.m < 0
  · rw [if_pos hm, hbody]
    exact numTok_build '-' (c :: t) (Or.inr rfl)
      (by
        intro x hx
        rcases List.mem_cons.mp hx with rfl | hx
        · decide
        · exact hall x hx)
  · rw [if_neg hm, hbody]
    exact numTok_build c t (Or.inl hdig) hall

theorem okL_of_all : ∀ {xs : List Json}, (∀ x ∈ xs, okJ x = true) → okL xs = true := by
  intro xs
  induction xs with
  | nil => intro _; simp [okL]
  | cons y ys ih =>
    intro h
    simp only [okL, Bool.and_eq_true]
    exact ⟨h y (List.mem_cons_self _ _), ih fun x hx => h x (List.mem_cons_of_mem _ hx)⟩

theorem okJ_cellToJson (c : Option String) : okJ (cellToJson c) = true := by
  cases c <;> simp [cellToJson, okJ]

theorem okJ_tableToJson (t : TableRecord) : okJ (tableToJson t) = true := by
  unfold tableToJson
  simp only [okJ, okK, Bool.and_eq_true, numTok_natLit, true_and, and_true]
  apply okL_of_all
  intro z hz
  simp only [List.mem_map] at hz
  obtain ⟨row, _, rfl⟩ := hz
  simp only [okJ]
  apply okL_of_all
  intro w hw
  simp only [List.mem_map] at hw
  obtain ⟨cell, _, rfl⟩ := hw
  exact okJ_cellToJson cell

theorem okJ_pageToJson (p : PageRecord) : okJ (pageToJson p) = true := by
  unfold pageToJson
  simp only [okJ, okK, Bool.and_eq_true, numTok_natLit, true_and, and_true]
  constructor
  · apply okL_of_all
    intro z hz
    simp only [List.mem_map] at hz
    obtain ⟨tab, _, rfl⟩ := hz
    exact okJ_tableToJson tab
  · apply okL_of_all
    intro z hz
    simp only [List.mem_map] at hz
    obtain ⟨_, _, rfl⟩ := hz
    simp [okJ]

theorem okJ_contentToJson (c : Content) : okJ (contentToJson c) = true := by
  unfold contentToJson
  simp only [okJ, okK, Bool.and_eq_true, true_and, and_true]
  refine ⟨?_, ?_, ?_⟩
  · apply okL_of_all
    intro z hz
    simp only [List.mem_map] at hz
    obtain ⟨pg, _, rfl⟩ := hz
    exact okJ_pageToJson pg
  · apply okL_of_all
    intro z hz
    simp only [List.mem_map] at hz
    obtain ⟨tab, _, rfl⟩ := hz
    exact okJ_tableToJson tab
  · apply okL_of_all
    intro z hz
    simp only [List.mem_map] at hz
    obtain ⟨_, _, rfl⟩ := hz
    simp [okJ]

theorem okJ_metadataToJson (m : ExtMetadata) : okJ (metadataToJson m) = true := by
  unfold metadataToJson
  simp [okJ, okK, numTok_natLit]

theorem okJ_infoToJson (i : ExtractionInfo) : okJ (infoToJson i) = true := by
  unfold infoToJson
  simp only [okJ, okK, Bool.and_eq_true, numTok_decLit, true_and, and_true]
  apply okL_of_all
  intro z hz
  simp only [List.mem_map] at hz
  obtain ⟨s, _, rfl⟩ := hz
  simp [okJ]

theorem okJ_resultToJson (r : ExtractionResult) : okJ (resultToJson r) = true := by
  unfold resultToJson
  simp only [okJ, okK, Bool.and_eq_true, true_and, and_true]
  exact ⟨okJ_infoToJson _, okJ_contentToJson _, okJ_metadataToJson _⟩

theorem sizeL_le_items (M : Nat) :
    ∀ (xs : List Json) (x : Json),
      (∀ z ∈ x :: xs, ∀ L2, sizeJ z ≤ (dumpL L2 z).length) →
      sizeL (x :: xs) ≤ (dumpItems M x xs).length + 1 := by
  intro xs
  induction xs with
  | nil =>
    intro x helt
    have hx := helt x (List.mem_cons_self _ _) M
    rw [dumpItems]
    simp only [itemsSep, List.append_nil, List.length_append, sizeL]
    omega
  | cons y ys ih =>
    intro x helt
    have hx := helt x (List.mem_cons_self _ _) M
    have hrec := ih y fun z hz => helt z (List.mem_cons_of_mem _ hz)
    rw [dumpItems, itemsSep]
    rw [show sizeL (x :: y :: ys) = 1 + sizeJ x + sizeL (y :: ys) by simp [sizeL]]
    simp only [List.length_append, List.length_cons]
    omega

theorem sizeK_le_kvs (M : Nat) :
    ∀ (kvs : List (String × Json)) (k : String) (v : Json),
      (∀ z ∈ (k, v) :: kvs, ∀ L2, sizeJ z.2 ≤ (dumpL L2 z.2).length) →
      sizeK ((k, v) :: kvs) ≤ (dumpKvs M (k, v) kvs).length + 1 := by
  intro kvs
  induction kvs with
  | nil =>
    intro k v helt
    have hv := helt (k, v) (List.mem_cons_self _ _) M
    rw [dumpKvs]
    simp only [kvsSep, List.append_nil, List.length_append, List.length_cons, sizeK]
    simp only at hv
    omega
  | cons e es ih =>
    intro k v helt
    obtain ⟨k2, v2⟩ := e
    have hv := helt (k, v) (List.mem_cons_self _ _) M
    have hrec := ih k2 v2 fun z hz => helt z (List.mem_cons_of_mem _ hz)
    rw [dumpKvs, kvsSep]
    rw [show sizeK ((k, v) :: (k2, v2) :: es) = 1 + sizeJ v + sizeK ((k2, v2) :: es)
      by simp [sizeK]]
    simp only [List.length_append, List.length_cons]
    simp only at hv
    omega

theorem sizeJ_le_dump : ∀ (n : Nat) (j : Json), sizeOf j ≤ n → okJ j = true →
    ∀ L, sizeJ j ≤ (dumpL L j).length := by
  intro n
  induction n with
  | zero =>
    intro j hle _
    exact absurd hle (by have := json_sizeOf_pos j; omega)
  | succ n ih =>
    intro j hle hok L
    cases j with
    | null => simp [dumpL, sizeJ]
    | bool b => cases b <;> simp [dumpL, sizeJ]
    | num s =>
      have hnum : numTokOkB s = true := by simpa [okJ] using hok
      obtain ⟨c, t, hs, _, _⟩ := numTok_cases hnum
      simp [dumpL, sizeJ, hs]
    | str s => simp [dumpL, sizeJ, quoteL]
    | arr xs =>
      cases xs with
      | nil => simp [dumpL, sizeJ, sizeL]
      | cons x xs =>
        have hszel : ∀ z ∈ x :: xs, sizeOf z ≤ n := by
          intro z hz
          have h1 := List.sizeOf_lt_of_mem hz
          have h2 : sizeOf (Json.arr (x :: xs)) = 1 + sizeOf (x :: xs) := by simp_arith
          omega
        have helts : ∀ z ∈ x :: xs, okJ z = true := okL_mem (by simpa [okJ] using hok)
        have hitems := sizeL_le_items (L + 1) xs x
          fun z hz L2 => ih z (hszel z hz) (helts z hz) L2
        rw [show dumpL L (Json.arr (x :: xs)) =
          '[' :: '\n' :: (dumpItems (L + 1) x xs ++ '\n' :: (indL L ++ [']']))
          by simp [dumpL]]
        rw [show sizeJ (Json.arr (x :: xs)) = 1 + sizeL (x :: xs) by simp [sizeJ]]
        simp only [List.length_cons, List.length_append]
        omega
    | obj kvs =>
      cases kvs with
      | nil => simp [dumpL, sizeJ, sizeK]
      | cons kv kvs =>
        obtain ⟨k, v⟩ := kv
        have hszel : ∀ z ∈ (k, v) :: kvs, sizeOf z.2 ≤ n := by
          intro z hz
          have h1 := List.sizeOf_lt_of_mem hz
          have h2 : sizeOf (Json.obj ((k, v) :: kvs)) = 1 + sizeOf ((k, v) :: kvs) := by
            simp_arith
          obtain ⟨zk, zv⟩ := z
          have h3 : sizeOf (zk, zv) = 1 + sizeOf zk + sizeOf zv := by simp_arith
          simp only at h1 h2 ⊢
          omega
        have helts : ∀ z ∈ (k, v) :: kvs, okJ z.2 = true := okK_mem (by simpa [okJ] using hok)
        have hkvs := sizeK_le_kvs (L + 1) kvs k v
          fun z hz L2 => ih z.2 (hszel z hz) (helts z hz) L2
        rw [show dumpL L (Json.obj ((k, v) :: kvs)) =
          lbrace :: '\n' :: (dumpKvs (L + 1) (k, v) kvs ++ '\n' :: (indL L ++ [rbrace]))
          by simp [dumpL]]
        rw [show sizeJ (Json.obj ((k, v) :: kvs)) = 1 + sizeK ((k, v) :: kvs) by simp [sizeJ]]
        simp only [List.length_cons, List.length_append]
        omega

theorem json_round_trip (j : Json) (hok : okJ j = true) :
    json_load (json_dump j) = some j := by
  have hlen : sizeJ j ≤ (dumpL 0 j).length := sizeJ_le_dump (sizeOf j) j le_rfl hok 0
  have hgood : ParsesGood j := parse_dump_ok (sizeOf j) j le_rfl hok
  have hparse : parseVal ((dumpL 0 j).length + 1) (dumpL 0 j ++ []) = some (j, []) :=
    hgood ((dumpL 0 j).length + 1) 0 [] (by omega) trivial
  rw [List.append_nil] at hparse
  show (match parseVal ((dumpL 0 j).length + 1) (dumpL 0 j) with
    | some (j, rest) => if skipWs rest = [] then some j else none
    | none => none) = some j
  rw [hparse]
  rfl

/-- C9: persistence writes two sibling files sharing the source's base
name with replaced extensions; the text file holds exactly
`content.raw_text` byte for byte; reading the JSON file back yields a
structure equal to the in-memory result (round trip); and non-ASCII
characters are serialized verbatim, never escaped. -/
theorem spec_c9_persistence :
    (∀ (p : String) (r : ExtractionResult),
      save_extraction_results p r =
        ((withSuffix p ".json", json_dump (resultToJson r)),
         (withSuffix p ".txt", r.content.raw_text))) ∧
    (∀ (p : String) (r : ExtractionResult),
      (save_extraction_results p r).1.1 = withSuffixBase p ++ ".json" ∧
      (save_extraction_results p r).2.1 = withSuffixBase p ++ ".txt") ∧
    (∀ (p : String) (r : ExtractionResult),
      (save_extraction_results p r).2.2 = r.content.raw_text) ∧
    (∀ (p : String) (r : ExtractionResult),
      json_load ((save_extraction_results p r).1.2) = some (resultToJson r)) ∧
    (∀ c : Char, 128 ≤ c.toNat → escChar c = [c]) := by
  refine ⟨fun p r => rfl, fun p r => ⟨rfl, rfl⟩, fun p r => rfl, ?_, ?_⟩
  · intro p r
    exact json_round_trip (resultToJson r) (okJ_resultToJson r)
  · intro c hc
    have h1 : c ≠ '"' := fun h => by subst h; exact absurd hc (by decide)
    have h2 : c ≠ '\\' := fun h => by subst h; exact absurd hc (by decide)
    have h3 : c ≠ '\n' := fun h => by subst h; exact absurd hc (by decide)
    have h4 : c ≠ '\t' := fun h => by subst h; exact absurd hc (by decide)
    have h5 : c ≠ '\r' := fun h => by subst h; exact absurd hc (by decide)
    have h6 : c ≠ Char.ofNat 8 := fun h => by subst h; exact absurd hc (by decide)
    have h7 : c ≠ Char.ofNat 12 := fun h => by subst h; exact absurd hc (by decide)
    have h8 : ¬(c.toNat < 32) := by omega
    simp [escChar, h1, h2, h3, h4, h5, h6, h7, h8]

/-- Witness for C9 at a concrete non-ASCII character. -/
theorem spec_c9_persistence_witness :
    128 ≤ ('é' : Char).toNat ∧ escChar 'é' = ['é'] :=
  ⟨by decide, spec_c9_persistence.2.2.2.2 'é' (by decide)⟩
